import Mathlib

/-!
Verification of the Mosaic activity-timeline segmentation pipeline
(`artified_backend/pipelines/timeline_pipeline.py`) and the nudge-trigger
detection pipeline (`artified_backend/pipelines/trigger_pipeline.py`).

Modelling conventions (shallow embedding):
* Timestamps are exact rationals, measured in minutes since the start of
  the day.  Python `datetime` arithmetic is exact to microseconds, and the
  pipeline only ever adds/halves time differences, so ℚ is a faithful
  carrier.
* Python `round` is round-half-to-even (`rnd_half_even`); Python `int(...)`
  on a float truncates toward zero (`py_int`).
* `list.sort(key=...)` in Python is a stable sort; we use a stable insertion
  sort (`stable_sort`), which computes the identical list for equal keys.
* The image-similarity metric reads image files; it is modelled as an
  arbitrary function parameter `simf` taking the two filenames.
* The sha256-based deterministic message selection is modelled by an
  arbitrary hash-index parameter `hash_idx : String → ℕ` standing for
  `int(sha256(salt).hexdigest()[:8], 16)`.
-/

/-- Python `int(x)` on an exact rational: truncation toward zero. -/
def py_int (q : ℚ) : ℤ := if 0 ≤ q then ⌊q⌋ else ⌈q⌉

/-- Python `round(x)` (no digits argument): round half to even. -/
def rnd_half_even (q : ℚ) : ℤ :=
  if q - ⌊q⌋ < 1/2 then ⌊q⌋
  else if (1:ℚ)/2 < q - ⌊q⌋ then ⌊q⌋ + 1
  else if ⌊q⌋ % 2 = 0 then ⌊q⌋ else ⌊q⌋ + 1

/-- Python `round(x, 3)`. -/
def round3 (q : ℚ) : ℚ := (rnd_half_even (q * 1000) : ℚ) / 1000

/-- Zero-pad a natural number to two digits (used for `%H`/`%M`). -/
def pad2n (n : ℕ) : String := if n < 10 then "0" ++ toString n else toString n

/-- Zero-pad a natural number to three digits, as Python `f"{n:03d}"`
(for n ≥ 1000 this is just the decimal digits, exactly like `%03d`). -/
def pad3n (n : ℕ) : String :=
  if n < 10 then "00" ++ toString n
  else if n < 100 then "0" ++ toString n
  else toString n

/-- `strftime("%H:%M")` for a time given in minutes since midnight. -/
def fmt_hhmm (q : ℚ) : String :=
  pad2n (((⌊q⌋ / 60) % 24).toNat) ++ ":" ++ pad2n ((⌊q⌋ % 60).toNat)

/-- Python `f"{x:.3f}"` for a nonnegative rational (used in idle notes). -/
def fmt_fixed3 (q : ℚ) : String :=
  let m := (rnd_half_even (q * 1000)).toNat
  toString (m / 1000) ++ "." ++ pad3n (m % 1000)

/-- Python `l[-n:]`: the last at most `n` elements of a list. -/
def last_n (n : ℕ) (l : List α) : List α := l.drop (l.length - n)

/-- One step of a stable insertion sort: insert `x` before the first
element `y` with `le x y` (so `x` lands after all earlier equal keys). -/
def stable_insert (le : α → α → Bool) (x : α) : List α → List α
  | [] => [x]
  | y :: ys => if le x y then x :: y :: ys else y :: stable_insert le x ys

/-- Stable insertion sort.  Python `list.sort(key=...)` is stable, and all
stable sorts by the same key agree, so this computes exactly the list the
source's sort produces. -/
def stable_sort (le : α → α → Bool) : List α → List α
  | [] => []
  | x :: xs => stable_insert le x (stable_sort le xs)

/-! ### Timeline pipeline (`timeline_pipeline.py`) -/

/-- The configuration fields of `AppConfig` consumed by the segmentation
pipeline (`config.py`; defaults as in the dataclass). -/
structure AppConfig where
  capture_interval_minutes : ℤ := 15
  idle_gap_minutes : ℤ := 20
  idle_similarity_threshold : ℚ := 985/1000
  idle_margin_minutes : ℤ := 5
  deriving DecidableEq, Repr

/-- A per-screenshot classification result (`FrameResult` dataclass).
`dt` is the timestamp in minutes since midnight. -/
structure FrameResult where
  dt : ℚ
  filename : String
  dominant_surface : String
  activity : String
  context_detail : String
  confidence : ℚ
  supporting_surfaces : List String
  notes : String
  deriving DecidableEq, Repr

/-- A provisional segment: the dict built by `_merge_frames_into_segments`
before normalization (`start_dt`/`end_dt` keys et al.). -/
structure ProvSegment where
  start_dt : ℚ
  end_dt : ℚ
  dominant_surface : String
  activity : String
  context_detail : String
  confidence : ℚ
  supporting_surfaces : List String
  evidence_frames : List String
  notes : String
  risk_flags : List String
  deriving DecidableEq, Repr

/-- A normalized output segment (the dict appended in the final loop of
`_merge_frames_into_segments`). -/
structure Segment where
  segment_id : String
  start_time_local : String
  end_time_local : String
  duration_minutes : ℤ
  dominant_surface : String
  activity : String
  context_detail : String
  confidence : ℚ
  supporting_surfaces : List String
  evidence_frames : List String
  notes : String
  risk_flags : List String
  deriving DecidableEq, Repr

/-- `_infer_capture_interval_minutes`: median of the positive consecutive
deltas (in minutes), rounded half-to-even, floored at 1;
`max(1, fallback)` when fewer than 2 frames or no positive delta. -/
def infer_capture_interval_minutes (frame_times : List ℚ) (fallback : ℤ) : ℤ :=
  if frame_times.length < 2 then max 1 fallback
  else
    let deltas := (frame_times.zip frame_times.tail).filterMap
      (fun p => if 0 < p.2 - p.1 then some (p.2 - p.1) else none)
    if deltas = [] then max 1 fallback
    else
      let sorted := stable_sort (fun a b => decide (a ≤ b)) deltas
      let mid := sorted.length / 2
      let median := if sorted.length % 2 = 1 then sorted.getD mid 0
        else (sorted.getD (mid - 1) 0 + sorted.getD mid 0) / 2
      max 1 (rnd_half_even median)

/-- `boundary_mid`: the midpoint `a + (b - a) / 2` between two frame times. -/
def boundary_mid (a b : ℚ) : ℚ := a + (b - a) / 2

/-- The start time the run-grouping loop assigns to a segment whose run
begins at frame `f0`: the frame's own time for the very first run, else
the midpoint with the previous frame. -/
def prev_start (prev : Option FrameResult) (f0 : FrameResult) : ℚ :=
  match prev with
  | none => f0.dt
  | some pf => boundary_mid pf.dt f0.dt

/-- The supporting-surface aggregation of a run: first-seen order union
over the chunk, excluding each frame's own dominant surface, capped at 3. -/
def collect_supporting (chunk : List FrameResult) : List String :=
  (chunk.foldl
    (fun acc fr => fr.supporting_surfaces.foldl
      (fun acc2 s =>
        if s ∉ acc2 ∧ s ≠ fr.dominant_surface then acc2 ++ [s] else acc2)
      acc)
    []).take 3

/-- The mean confidence of a chunk: `sum(...) / max(1, len(chunk))`. -/
def avg_confidence (chunk : List FrameResult) : ℚ :=
  (chunk.map (·.confidence)).sum / (max 1 chunk.length : ℕ)

instance : Inhabited FrameResult :=
  ⟨{ dt := 0, filename := "", dominant_surface := "", activity := "",
     context_detail := "", confidence := 0, supporting_surfaces := [], notes := "" }⟩

/-- Build the provisional-segment dict for one run (`initial.append` body). -/
def mk_prov_segment (chunk : List FrameResult) (seg_start seg_end : ℚ) :
    ProvSegment :=
  let first := chunk.headD default
  { start_dt := seg_start
    end_dt := seg_end
    dominant_surface := first.dominant_surface
    activity := first.activity
    context_detail := first.context_detail
    confidence := round3 (avg_confidence chunk)
    supporting_surfaces := collect_supporting chunk
    evidence_frames := chunk.map (·.filename)
    notes := first.notes
    risk_flags := if avg_confidence chunk < 60/100 then ["low_confidence"] else ["none"] }

/-- Split off the maximal leading run of frames whose
`(dominant_surface, activity)` bucket equals `bkt`; returns the run and
the remaining frames. -/
def takeRun (bkt : String × String) : List FrameResult → List FrameResult × List FrameResult
  | [] => ([], [])
  | f :: rest =>
    if (f.dominant_surface, f.activity) = bkt then
      let p := takeRun bkt rest
      (f :: p.1, p.2)
    else ([], f :: rest)

/-- The main run-grouping loop of `_merge_frames_into_segments`
(`while start_idx < n`): each iteration takes the maximal run of frames
with one bucket, makes a segment whose start is the first frame's time
(run at index 0) or the midpoint with the previous frame, and whose end is
the midpoint with the next frame or, for the final run, the last frame's
time plus the inferred interval.  `prev` is the frame just before the
current remaining list (`frames[start_idx - 1]`). -/
def build_initial_segments (interval : ℚ) :
    Option FrameResult → List FrameResult → List ProvSegment
  | _, [] => []
  | prev, f :: rest =>
    let p := takeRun (f.dominant_surface, f.activity) rest
    let chunk := f :: p.1
    let lastF := p.1.getLastD f
    let seg_start := match prev with
      | none => f.dt
      | some pf => boundary_mid pf.dt f.dt
    let seg_end := match p.2 with
      | nxt :: _ => boundary_mid lastF.dt nxt.dt
      | [] => lastF.dt + interval
    mk_prov_segment chunk seg_start seg_end ::
      build_initial_segments interval (some lastF) p.2
termination_by _ l => l.length
decreasing_by
  have h : ∀ (bkt : String × String) (l : List FrameResult),
      (takeRun bkt l).2.length ≤ l.length := by
    intro bkt l
    induction l with
    | nil => simp [takeRun]
    | cons g rest2 ih =>
      simp only [takeRun]
      split
      · simpa using Nat.le_succ_of_le ih
      · simp
  have h2 := h (f.dominant_surface, f.activity) rest
  simp only [List.length_cons]
  omega

/-- One idle-interval candidate from an adjacent frame pair: pair is
skipped when the gap is below `idle_gap_minutes` or the similarity is
below `idle_similarity_threshold`; otherwise the margin-shrunk interval
is kept only when it has positive width.  Returns `(istart, iend, sim)`. -/
def idle_interval_of_pair (cfg : AppConfig) (simf : String → String → ℚ)
    (p : FrameResult × FrameResult) : Option (ℚ × ℚ × ℚ) :=
  let a := p.1
  let b := p.2
  let delta_min := b.dt - a.dt
  if delta_min < (cfg.idle_gap_minutes : ℚ) then none
  else
    let sim := simf a.filename b.filename
    if sim < cfg.idle_similarity_threshold then none
    else
      let margin := min cfg.idle_margin_minutes (py_int (delta_min / 4))
      let istart := a.dt + (margin : ℚ)
      let iend := b.dt - (margin : ℚ)
      if istart < iend then some (istart, iend, sim) else none

/-- The idle-carving scan over all adjacent frame pairs
(`for i in range(n - 1)` loop). -/
def idle_intervals (cfg : AppConfig) (simf : String → String → ℚ)
    (frames : List FrameResult) : List (ℚ × ℚ × ℚ) :=
  (frames.zip frames.tail).filterMap (idle_interval_of_pair cfg simf)

/-- `subtract_interval`: remove `[cut_start, cut_end]` from a segment,
keeping a left and/or right remainder when non-empty. -/
def subtract_interval (seg : ProvSegment) (cut_start cut_end : ℚ) :
    List ProvSegment :=
  if cut_end ≤ seg.start_dt ∨ seg.end_dt ≤ cut_start then [seg]
  else
    (if seg.start_dt < cut_start then [{ seg with end_dt := cut_start }] else []) ++
    (if cut_end < seg.end_dt then [{ seg with start_dt := cut_end }] else [])

/-- The carving loop: subtract each idle interval, in order, from every
segment carved so far. -/
def carve_all : List (ℚ × ℚ × ℚ) → List ProvSegment → List ProvSegment
  | [], carved => carved
  | iv :: rest, carved =>
    carve_all rest (carved.flatMap (fun seg => subtract_interval seg iv.1 iv.2.1))

/-- The synthetic Idle segment inserted for a carved interval. -/
def mk_idle_segment (iv : ℚ × ℚ × ℚ) : ProvSegment :=
  { start_dt := iv.1
    end_dt := iv.2.1
    dominant_surface := "Idle"
    activity := "Idle"
    context_detail := "No visible change; likely away/idle."
    confidence := 6/10
    supporting_surfaces := []
    evidence_frames := []
    notes := "Auto-detected idle (similarity=" ++ fmt_fixed3 iv.2.2 ++ ")."
    risk_flags := ["idle_detected"] }

/-- The provisional timeline the pipeline builds before carving. -/
def provisional_segments (cfg : AppConfig) (frames : List FrameResult) :
    List ProvSegment :=
  build_initial_segments
    (infer_capture_interval_minutes (frames.map (·.dt)) cfg.capture_interval_minutes : ℤ)
    none frames

/-- `all_segments` right after `all_segments.sort(key=lambda s: s["start_dt"])`:
carved fragments plus Idle segments, stably sorted by start time. -/
def sorted_all_of (cfg : AppConfig) (simf : String → String → ℚ)
    (frames : List FrameResult) : List ProvSegment :=
  stable_sort (fun s t => decide (s.start_dt ≤ t.start_dt))
    (carve_all (idle_intervals cfg simf frames) (provisional_segments cfg frames)
      ++ (idle_intervals cfg simf frames).map mk_idle_segment)

/-- The body of the final normalization loop for one `(idx, seg)` pair:
skip the entry when its rounded duration is ≤ 0, else emit the output
dict with its `S%03d` id and `%H:%M` time strings. -/
def normalize_entry (p : ℕ × ProvSegment) : Option Segment :=
  let duration_minutes := rnd_half_even (p.2.end_dt - p.2.start_dt)
  if duration_minutes ≤ 0 then none
  else some
    { segment_id := "S" ++ pad3n p.1
      start_time_local := fmt_hhmm p.2.start_dt
      end_time_local := fmt_hhmm p.2.end_dt
      duration_minutes := duration_minutes
      dominant_surface := p.2.dominant_surface
      activity := p.2.activity
      context_detail := p.2.context_detail
      confidence := p.2.confidence
      supporting_surfaces := p.2.supporting_surfaces
      evidence_frames := p.2.evidence_frames
      notes := p.2.notes
      risk_flags := p.2.risk_flags }

/-- The final normalization loop: enumerate the sorted list from 1 and
apply `normalize_entry` to each entry. -/
def normalize_segments (all_segments : List ProvSegment) : List Segment :=
  (all_segments.enumFrom 1).filterMap normalize_entry

/-- `_merge_frames_into_segments`: the full segmentation pipeline, returning
the normalized segments and the inferred capture interval. -/
def merge_frames_into_segments (cfg : AppConfig) (simf : String → String → ℚ)
    (frames : List FrameResult) : List Segment × ℤ :=
  if frames = [] then ([], max 1 cfg.capture_interval_minutes)
  else
    (normalize_segments (sorted_all_of cfg simf frames),
     infer_capture_interval_minutes (frames.map (·.dt)) cfg.capture_interval_minutes)

/-- The guard at the top of `build_timeline` (lines 496–498): a day
directory yielding no images raises `RuntimeError("No images found ...")`
rather than running the segmentation pipeline.  Only this control path is
embedded here; the remainder of `build_timeline` performs network I/O. -/
def build_timeline_images_guard (images : List (ℚ × String)) :
    Except String (List (ℚ × String)) :=
  if images = [] then Except.error "No images found" else Except.ok images

/-! ### Trigger pipeline (`trigger_pipeline.py`) -/

/-- A timeline segment as consumed by the trigger detectors.  The source
reads dict fields; `startMin`/`endMin` are the minute-of-day values of
`start_time_local`/`end_time_local` (always produced as `%H:%M` by the
timeline pipeline), so `parse_hhmm` is the projection to these fields and
the `HH:MM` strings are regenerated by `fmt_hhmm_min`. -/
structure TrigSegment where
  segment_id : String
  startMin : ℤ
  endMin : ℤ
  duration_minutes : ℤ
  activity : String
  is_work : Option Bool := none
  project_id : Option String := none
  deriving DecidableEq, Repr

/-- `fmt_hhmm` for an integral minute-of-day (regenerates the
`start_time_local`/`end_time_local` strings carried by the segment dicts). -/
def fmt_hhmm_min (m : ℤ) : String :=
  pad2n (((m / 60) % 24).toNat) ++ ":" ++ pad2n ((m % 60).toNat)

/-- `DEFAULT_WORK_ACTIVITIES` (a set; only membership is used). -/
def DEFAULT_WORK_ACTIVITIES : List String := ["Coding", "Writing/Reading"]

/-- `infer_is_work`: explicit `is_work` flag if present, else exact
membership of the activity label in the default work-activity set. -/
def infer_is_work (seg : TrigSegment) : Bool :=
  match seg.is_work with
  | some b => b
  | none => DEFAULT_WORK_ACTIVITIES.contains seg.activity

/-- `infer_project_id`. -/
def infer_project_id (seg : TrigSegment) : Option String := seg.project_id

/-- The `CooldownTracker` class: a `key -> last fired minute` mapping.
Python dict assignment overwrites; modelled as an association list whose
newest binding shadows older ones. -/
structure CooldownTracker where
  last_sent_at : List (String × ℤ)
  deriving DecidableEq, Repr

/-- `CooldownTracker.can_send`: true when the key never fired or the
elapsed minutes reach the cooldown. -/
def CooldownTracker.can_send (cd : CooldownTracker) (key : String)
    (now_min cooldown_min : ℤ) : Bool :=
  match cd.last_sent_at.lookup key with
  | none => true
  | some last => cooldown_min ≤ now_min - last

/-- `CooldownTracker.mark_sent`. -/
def CooldownTracker.mark_sent (cd : CooldownTracker) (key : String)
    (now_min : ℤ) : CooldownTracker :=
  ⟨(key, now_min) :: cd.last_sent_at⟩

/-- A freshly constructed tracker (`CooldownTracker()`). -/
def cd_empty : CooldownTracker := ⟨[]⟩

/-- `FeedbackUI` dataclass. -/
structure FeedbackUI where
  type : String
  ttl_sec : ℤ := 6
  can_close : Bool := true
  intensity : String := "light"
  deriving DecidableEq, Repr

/-- `FeedbackEvent` dataclass. -/
structure FeedbackEvent where
  event_id : String
  time_local : String
  time_minute_of_day : ℤ
  trigger_type : String
  level : String
  ui : FeedbackUI
  message : String
  evidence_segment_ids : List String
  project_id : Option String := none
  confidence : ℚ := 8/10
  cooldown_minutes : ℤ := 30
  deriving DecidableEq, Repr

/-- `_choose`: deterministic variant selection.  `hash_idx` stands for
`int(sha256(salt).hexdigest()[:8], 16)`. -/
def choose_variant (hash_idx : String → ℕ) (options : List String)
    (salt : String) : String :=
  if options = [] then "" else options.getD (hash_idx salt % options.length) ""

/-- The event built for the first work segment (`detect_first_work` body). -/
def first_work_event (seg : TrigSegment) : FeedbackEvent :=
  { event_id := "firstwork_" ++ seg.segment_id
    time_local := fmt_hhmm_min seg.startMin
    time_minute_of_day := seg.startMin
    trigger_type := "first_work"
    level := "L1"
    ui := { type := "corner_bubble", ttl_sec := 6, can_close := true, intensity := "light" }
    message := "开始干活啦～今天也一起把重要的事推进一点点。"
    evidence_segment_ids := [seg.segment_id]
    project_id := infer_project_id seg
    confidence := 75/100
    cooldown_minutes := 24 * 60 }

/-- `detect_first_work`: scan to the first work segment; emit one event if
the 24h `"first_work"` cooldown allows, else nothing; never look past the
first work segment. -/
def detect_first_work (segments : List TrigSegment) (cd : CooldownTracker) :
    List FeedbackEvent × CooldownTracker :=
  match segments with
  | [] => ([], cd)
  | seg :: rest =>
    if infer_is_work seg then
      if cd.can_send "first_work" seg.startMin (24 * 60) then
        ([first_work_event seg], cd.mark_sent "first_work" seg.startMin)
      else ([], cd)
    else detect_first_work rest cd

/-- The per-level message variant lists of `detect_focus_levels`
(f-strings over the threshold value). -/
def focus_variants (th : ℤ) (level : String) : List String :=
  if level = "L1" then
    ["你已经连续专注了 " ++ toString th ++ " 分钟，记得喝口水。",
     toString th ++ " 分钟专注达成。站起来走两步会更舒服。",
     "专注 " ++ toString th ++ " 分钟了，节奏很稳，继续保持。"]
  else if level = "L2" then
    ["已经专注到 " ++ toString th ++ " 分钟。可以考虑做一次小休息再继续。",
     toString th ++ " 分钟深度状态很难得，休息一下眼睛更好。",
     "专注 " ++ toString th ++ " 分钟了。给自己一个小奖励吧。"]
  else if level = "L3" then
    ["你已经专注了 " ++ toString th ++ " 分钟，今天推进很扎实。",
     toString th ++ " 分钟连续投入，建议起来活动一下肩颈。",
     "专注到 " ++ toString th ++ " 分钟了，干得漂亮，别忘了补水。"]
  else []

/-- The focus event emitted when a level fires at a segment's end. -/
def focus_event (hash_idx : String → ℕ) (seg : TrigSegment) (th : ℤ)
    (level : String) (chain_ids : List String) (cur_project : Option String) :
    FeedbackEvent :=
  { event_id := "focus_" ++ seg.segment_id ++ "_" ++ level
    time_local := fmt_hhmm_min seg.endMin
    time_minute_of_day := seg.endMin
    trigger_type := "focus"
    level := level
    ui := { type := "corner_bubble", ttl_sec := 6, can_close := true,
            intensity := if level = "L1" then "light" else "medium" }
    message := choose_variant hash_idx (focus_variants th level)
      (seg.segment_id ++ "_" ++ level ++ "_" ++ toString seg.endMin)
    evidence_segment_ids := last_n 6 chain_ids
    project_id := cur_project
    confidence := 85/100
    cooldown_minutes := 180 }

/-- The mutable state of the `detect_focus_levels` scan. -/
structure FocusState where
  events : List FeedbackEvent
  consecutive : ℤ
  emitted : List String
  chain_ids : List String
  cur_project : Option String
  cd : CooldownTracker

/-- The inner `for i, th in enumerate(thresholds)` loop body. -/
def focus_threshold_step (hash_idx : String → ℕ) (seg : TrigSegment)
    (st : FocusState) (p : ℕ × ℤ) : FocusState :=
  let level := "L" ++ toString (p.1 + 1)
  let key := "focus_" ++ level
  if p.2 ≤ st.consecutive ∧ level ∉ st.emitted ∧
      st.cd.can_send key seg.endMin 60 then
    { st with
      events := st.events ++
        [focus_event hash_idx seg p.2 level st.chain_ids st.cur_project]
      emitted := level :: st.emitted
      cd := st.cd.mark_sent key seg.endMin }
  else st

/-- The per-segment body of `detect_focus_levels`. -/
def focus_segment_step (hash_idx : String → ℕ) (thresholds : List ℤ)
    (st : FocusState) (seg : TrigSegment) : FocusState :=
  if infer_is_work seg then
    let st1 := { st with
      consecutive := st.consecutive + seg.duration_minutes
      chain_ids := st.chain_ids ++ [seg.segment_id]
      cur_project := (infer_project_id seg).or st.cur_project }
    thresholds.enum.foldl (focus_threshold_step hash_idx seg) st1
  else
    { st with consecutive := 0, emitted := [], chain_ids := [], cur_project := none }

/-- `detect_focus_levels`: running consecutive-work-minutes counter with a
per-chain `emitted` level set, reset on any non-work segment. -/
def detect_focus_levels (hash_idx : String → ℕ) (segments : List TrigSegment)
    (cd : CooldownTracker) (thresholds : List ℤ) :
    List FeedbackEvent × CooldownTracker :=
  let final := segments.foldl (focus_segment_step hash_idx thresholds)
    { events := [], consecutive := 0, emitted := [], chain_ids := [],
      cur_project := none, cd := cd }
  (final.events, final.cd)

/-- The state of the `detect_return_to_work` scan. -/
structure ReturnState where
  events : List FeedbackEvent
  off_min : ℤ
  off_ids : List String
  was_off : Bool
  cd : CooldownTracker

/-- The per-segment body of `detect_return_to_work`. -/
def return_segment_step (min_offwork_minutes : ℤ) (st : ReturnState)
    (seg : TrigSegment) : ReturnState :=
  if ¬ infer_is_work seg then
    { st with
      was_off := true
      off_min := st.off_min + seg.duration_minutes
      off_ids := st.off_ids ++ [seg.segment_id] }
  else
    let fire := st.was_off ∧ min_offwork_minutes ≤ st.off_min ∧
      st.cd.can_send "return_to_work" seg.startMin 60
    let ev : FeedbackEvent :=
      { event_id := "return_" ++ seg.segment_id
        time_local := fmt_hhmm_min seg.startMin
        time_minute_of_day := seg.startMin
        trigger_type := "return_to_work"
        level := "L2"
        ui := { type := "toast", ttl_sec := 6, can_close := true, intensity := "medium" }
        message := "欢迎回来～你刚刚离开工作页面 " ++ toString st.off_min ++
          " 分钟，继续把这一段收尾就很棒。"
        evidence_segment_ids := last_n 6 st.off_ids ++ [seg.segment_id]
        project_id := infer_project_id seg
        confidence := 8/10
        cooldown_minutes := 180 }
    { events := if fire then st.events ++ [ev] else st.events
      off_min := 0
      off_ids := []
      was_off := false
      cd := if fire then st.cd.mark_sent "return_to_work" seg.startMin else st.cd }

/-- `detect_return_to_work`. -/
def detect_return_to_work (segments : List TrigSegment) (cd : CooldownTracker)
    (min_offwork_minutes : ℤ) : List FeedbackEvent × CooldownTracker :=
  let final := segments.foldl (return_segment_step min_offwork_minutes)
    { events := [], off_min := 0, off_ids := [], was_off := false, cd := cd }
  (final.events, final.cd)

/-- The anomaly event emitted at a window's close. -/
def anomaly_event (seg : TrigSegment) (window_ids : List String) :
    FeedbackEvent :=
  { event_id := "anomaly_" ++ seg.segment_id
    time_local := fmt_hhmm_min seg.endMin
    time_minute_of_day := seg.endMin
    trigger_type := "anomaly"
    level := "L2"
    ui := { type := "toast", ttl_sec := 6, can_close := true, intensity := "medium" }
    message := "你这一小时切换有点频繁，先选一个最小任务推进 10 分钟，会更轻松。"
    evidence_segment_ids := last_n 12 window_ids
    project_id := none
    confidence := 7/10
    cooldown_minutes := 180 }

/-- The state of the `detect_anomaly_switching` scan. -/
structure AnomalyState where
  events : List FeedbackEvent
  switches : ℤ
  prev : Option Bool
  window_start : Option ℤ
  window_ids : List String
  cd : CooldownTracker

/-- The per-segment body of `detect_anomaly_switching`: count a switch
when the work flag differs from `prev`; once the span from the window
start to this segment's end reaches the window length, evaluate and
unconditionally reset (including `prev := none`). -/
def anomaly_segment_step (window_minutes switch_threshold : ℤ)
    (st : AnomalyState) (seg : TrigSegment) : AnomalyState :=
  let cur := infer_is_work seg
  let wstart := st.window_start.getD seg.startMin
  let window_ids := st.window_ids ++ [seg.segment_id]
  let switches := match st.prev with
    | some p => if cur ≠ p then st.switches + 1 else st.switches
    | none => st.switches
  if window_minutes ≤ seg.endMin - wstart then
    if switch_threshold ≤ switches ∧
        st.cd.can_send "anomaly_switching" seg.endMin 180 then
      { events := st.events ++ [anomaly_event seg window_ids]
        switches := 0, prev := none, window_start := none, window_ids := []
        cd := st.cd.mark_sent "anomaly_switching" seg.endMin }
    else
      { events := st.events, switches := 0, prev := none,
        window_start := none, window_ids := [], cd := st.cd }
  else
    { events := st.events, switches := switches, prev := some cur,
      window_start := some wstart, window_ids := window_ids, cd := st.cd }

/-- `detect_anomaly_switching`. -/
def detect_anomaly_switching (segments : List TrigSegment)
    (cd : CooldownTracker) (window_minutes switch_threshold : ℤ) :
    List FeedbackEvent × CooldownTracker :=
  let final := segments.foldl (anomaly_segment_step window_minutes switch_threshold)
    { events := [], switches := 0, prev := none, window_start := none,
      window_ids := [], cd := cd }
  (final.events, final.cd)

/-- `generate_feedback_events`: stable-sort the segments by start time,
run the four detectors sharing one freshly created tracker, and return the
final event list stably sorted by minute of day. -/
def generate_feedback_events (hash_idx : String → ℕ)
    (segments0 : List TrigSegment) : List FeedbackEvent :=
  let segments := stable_sort (fun s t => decide (s.startMin ≤ t.startMin)) segments0
  let r1 := detect_first_work segments cd_empty
  let r2 := detect_focus_levels hash_idx segments r1.2 [15, 25, 40]
  let r3 := detect_return_to_work segments r2.2 5
  let r4 := detect_anomaly_switching segments r3.2 120 10
  stable_sort (fun e f => decide (e.time_minute_of_day ≤ f.time_minute_of_day))
    (r1.1 ++ r2.1 ++ r3.1 ++ r4.1)

/-- Two segments' time spans intersect in at most a boundary point. -/
def seg_nonoverlap (s t : ProvSegment) : Prop :=
  min s.end_dt t.end_dt ≤ max s.start_dt t.start_dt

/-- The sorted entries that survive the duration filter of the
normalization loop, with their exact start/end times (the final output
keeps only the formatted `HH:MM` strings; this list is its positional
pre-image, used to state the timeline invariants). -/
def kept_of (cfg : AppConfig) (simf : String → String → ℚ)
    (frames : List FrameResult) : List ProvSegment :=
  (sorted_all_of cfg simf frames).filter
    (fun s => 0 < rnd_half_even (s.end_dt - s.start_dt))

/-! ### Specification-side definitions (for refinement comparisons)

These definitions follow the wording of the specification/claims, to be
compared against the source-derived definitions above. -/

/-- The positive consecutive deltas of a timestamp list, in minutes
(spec §4.1 wording). -/
def positive_deltas (times : List ℚ) : List ℚ :=
  (times.zip times.tail).filterMap
    (fun p => if 0 < p.2 - p.1 then some (p.2 - p.1) else none)

/-- The statistical median of a non-empty list: middle element of the
sorted list, or the average of the two middle elements for even counts
(spec §4.1 wording). -/
def median_of (l : List ℚ) : ℚ :=
  let sorted := stable_sort (fun a b => decide (a ≤ b)) l
  if sorted.length % 2 = 1 then sorted.getD (sorted.length / 2) 0
  else (sorted.getD (sorted.length / 2 - 1) 0 + sorted.getD (sorted.length / 2) 0) / 2

/-- Claim C9's carving formula, followed literally: an exact (untruncated)
`margin = min(idle_margin_minutes, gap/4)`, candidate
`[a.time + margin, b.time - margin]`, kept only for strictly positive
duration. -/
def claim_idle_interval_of_pair (cfg : AppConfig) (simf : String → String → ℚ)
    (p : FrameResult × FrameResult) : Option (ℚ × ℚ × ℚ) :=
  let a := p.1
  let b := p.2
  let delta_min := b.dt - a.dt
  if delta_min < (cfg.idle_gap_minutes : ℚ) then none
  else
    let sim := simf a.filename b.filename
    if sim < cfg.idle_similarity_threshold then none
    else
      let margin : ℚ := min (cfg.idle_margin_minutes : ℚ) (delta_min / 4)
      let istart := a.dt + margin
      let iend := b.dt - margin
      if 0 < iend - istart then some (istart, iend, sim) else none

/-- Claim C9's idle-carver, over all adjacent pairs. -/
def claim_idle_intervals (cfg : AppConfig) (simf : String → String → ℚ)
    (frames : List FrameResult) : List (ℚ × ℚ × ℚ) :=
  (frames.zip frames.tail).filterMap (claim_idle_interval_of_pair cfg simf)

/-- Count of work/non-work flips between consecutive entries of a
classification list (spec §4.6 wording for `anomaly_switching`). -/
def flip_count : List Bool → ℕ
  | [] => 0
  | [_] => 0
  | a :: b :: t => (if a ≠ b then 1 else 0) + flip_count (b :: t)

/-- Flip count seeded with an optional preceding classification. -/
def flip_seed : Option Bool → List Bool → ℕ
  | _, [] => 0
  | none, c :: rest => flip_seed (some c) rest
  | some p, c :: rest => (if c ≠ p then 1 else 0) + flip_seed (some c) rest

/-- Split off the shortest non-empty window: the minimal prefix whose last
segment's end is at least `window_minutes` past `wstart`; `none` when even
the whole list never closes a window. -/
def split_window (window_minutes wstart : ℤ) :
    List TrigSegment → Option (List TrigSegment × List TrigSegment)
  | [] => none
  | s :: rest =>
    if window_minutes ≤ s.endMin - wstart then some ([s], rest)
    else match split_window window_minutes wstart rest with
      | some (w, r) => some (s :: w, r)
      | none => none

/-- Helper length bound for `split_window` (stated as a definition so it
can justify termination of `anomaly_windows` below). -/
def split_window_len (window_minutes wstart : ℤ) :
    ∀ (l : List TrigSegment) (w r : List TrigSegment),
      split_window window_minutes wstart l = some (w, r) → r.length < l.length := by
  intro l
  induction l with
  | nil => intro w r h; simp [split_window] at h
  | cons s rest ih =>
    intro w r h
    simp only [split_window] at h
    split at h
    · injection h with h1
      injection h1 with _ h2
      subst h2
      simp
    · revert h
      split
      next w0 r0 heq =>
        intro h
        injection h with h1
        injection h1 with _ h2
        subst h2
        exact Nat.lt_succ_of_lt (ih w0 r0 heq)
      next =>
        intro h
        exact absurd h (by simp)

/-- The sequence of complete evaluation windows of the anomaly detector:
each window is the minimal run of segments whose span (from the first
segment's start to the current segment's end) reaches the window length;
a trailing run that never closes is discarded (spec §4.6 wording). -/
def anomaly_windows (window_minutes : ℤ) : List TrigSegment → List (List TrigSegment)
  | [] => []
  | s :: rest =>
    match h : split_window window_minutes s.startMin (s :: rest) with
    | some (w, r) => w :: anomaly_windows window_minutes r
    | none => []
termination_by l => l.length
decreasing_by
  exact split_window_len _ _ _ _ _ h

/-- Evaluation of one complete window, per the (amended) claim: the switch
count is the number of flips between consecutive segments of that window
alone; the seeds `sw0`, `pv0`, `ids0` generalize over state carried into
the window (the detector always enters a window with `0 / none / []`). -/
def window_eval_from (sw0 : ℤ) (pv0 : Option Bool) (ids0 : List String)
    (switch_threshold : ℤ) (acc : List FeedbackEvent × CooldownTracker)
    (w : List TrigSegment) : List FeedbackEvent × CooldownTracker :=
  match w.getLast? with
  | none => acc
  | some lastSeg =>
    let switches := sw0 + (flip_seed pv0 (w.map infer_is_work) : ℤ)
    let window_ids := ids0 ++ w.map (fun s => s.segment_id)
    if switch_threshold ≤ switches ∧
        acc.2.can_send "anomaly_switching" lastSeg.endMin 180 then
      (acc.1 ++ [anomaly_event lastSeg window_ids],
       acc.2.mark_sent "anomaly_switching" lastSeg.endMin)
    else acc

/-- The window-based reference semantics of `detect_anomaly_switching`:
fold the complete windows in order, evaluating each with a per-window flip
count (no state crosses a window boundary). -/
def anomaly_spec_windows (segments : List TrigSegment) (cd : CooldownTracker)
    (window_minutes switch_threshold : ℤ) :
    List FeedbackEvent × CooldownTracker :=
  (anomaly_windows window_minutes segments).foldl
    (window_eval_from 0 none [] switch_threshold) ([], cd)

/-- Accumulated work minutes crossing a threshold: the end minute of the
first segment at which the running total (seeded with `c`) reaches `th`. -/
def first_cross_from (c th : ℤ) : List TrigSegment → Option ℤ
  | [] => none
  | s :: rest =>
    if th ≤ c + s.duration_minutes then some s.endMin
    else first_cross_from (c + s.duration_minutes) th rest

/-- The canonical `emitted` set of the focus scan with thresholds
`[15, 25, 40]` after accumulating `c` consecutive work minutes (levels
fire in ascending order, each consed onto the Python set's model). -/
def emitted_for (c : ℤ) : List String :=
  (if 40 ≤ c then ["L3"] else []) ++ (if 25 ≤ c then ["L2"] else []) ++
    (if 15 ≤ c then ["L1"] else [])

/-- The `(level, end-minute)` pairs the focus scan (thresholds
`[15, 25, 40]`) still emits over a remaining all-work chain, given `c`
minutes already accumulated: one pair per threshold not yet reached,
anchored at the first segment where the running total crosses it. -/
def focus_pending (c : ℤ) (segs : List TrigSegment) : List (String × ℤ) :=
  [("L1", (15:ℤ)), ("L2", (25:ℤ)), ("L3", (40:ℤ))].filterMap
    (fun q => if q.2 ≤ c then none
      else (first_cross_from c q.2 segs).map (fun t => (q.1, t)))

/-! ### Concrete example inputs -/

/-- A work segment used by counterexamples (30 minutes of Coding). -/
def c4seg : TrigSegment :=
  { segment_id := "S001", startMin := 0, endMin := 30, duration_minutes := 30,
    activity := "Coding" }

/-- C5 counterexample input: two work segments filling one 60-minute
window, then two non-work segments filling the next; the only flip
straddles the boundary between the two evaluated windows. -/
def c5segA : TrigSegment :=
  { segment_id := "S001", startMin := 0, endMin := 30, duration_minutes := 30,
    activity := "Coding" }

/-- Second C5 segment (work, closes the first window). -/
def c5segB : TrigSegment :=
  { segment_id := "S002", startMin := 30, endMin := 60, duration_minutes := 30,
    activity := "Coding" }

/-- Third C5 segment (non-work, opens the second window). -/
def c5segC : TrigSegment :=
  { segment_id := "S003", startMin := 60, endMin := 90, duration_minutes := 30,
    activity := "Social" }

/-- Fourth C5 segment (non-work, closes the second window). -/
def c5segD : TrigSegment :=
  { segment_id := "S004", startMin := 90, endMin := 120, duration_minutes := 30,
    activity := "Social" }

/-- C3 counterexample: three sorted fragments, the middle one with zero
duration (so it is dropped while still consuming an id). -/
def c3A : ProvSegment :=
  { start_dt := 0, end_dt := 10, dominant_surface := "YouTube",
    activity := "Video", context_detail := "", confidence := 9/10,
    supporting_surfaces := [], evidence_frames := [], notes := "",
    risk_flags := ["none"] }

/-- Zero-duration middle fragment of the C3 counterexample. -/
def c3B : ProvSegment :=
  { start_dt := 10, end_dt := 10, dominant_surface := "YouTube",
    activity := "Video", context_detail := "", confidence := 9/10,
    supporting_surfaces := [], evidence_frames := [], notes := "",
    risk_flags := ["none"] }

/-- Final fragment of the C3 counterexample. -/
def c3C : ProvSegment :=
  { start_dt := 10, end_dt := 20, dominant_surface := "YouTube",
    activity := "Video", context_detail := "", confidence := 9/10,
    supporting_surfaces := [], evidence_frames := [], notes := "",
    risk_flags := ["none"] }

/-- C9 counterexample configuration: idle gap lowered to 10 minutes so
that a pair can pass the gap check while `gap/4` is fractional and below
the margin cap. -/
def c9cfg : AppConfig :=
  { capture_interval_minutes := 15, idle_gap_minutes := 10,
    idle_similarity_threshold := 9/10, idle_margin_minutes := 5 }

/-- First frame of the C9 counterexample (time 0). -/
def c9fA : FrameResult :=
  { dt := 0, filename := "a.png", dominant_surface := "YouTube",
    activity := "Video", context_detail := "", confidence := 9/10,
    supporting_surfaces := [], notes := "" }

/-- Second frame of the C9 counterexample (time 18: gap 18, gap/4 = 4.5). -/
def c9fB : FrameResult :=
  { dt := 18, filename := "b.png", dominant_surface := "YouTube",
    activity := "Video", context_detail := "", confidence := 9/10,
    supporting_surfaces := [], notes := "" }

/-- Witness frame for C9 at time 0 (default config, gap 40). -/
def w9fA : FrameResult :=
  { dt := 0, filename := "a.png", dominant_surface := "YouTube",
    activity := "Video", context_detail := "", confidence := 9/10,
    supporting_surfaces := [], notes := "" }

/-- Witness frame for C9 at time 40. -/
def w9fB : FrameResult :=
  { dt := 40, filename := "b.png", dominant_surface := "YouTube",
    activity := "Video", context_detail := "", confidence := 9/10,
    supporting_surfaces := [], notes := "" }

/-- Witness frame for C1/C2 at time 0 (Coding bucket). -/
def wfA : FrameResult :=
  { dt := 0, filename := "a.png", dominant_surface := "GitHub",
    activity := "Coding", context_detail := "", confidence := 9/10,
    supporting_surfaces := [], notes := "" }

/-- Witness frame for C1/C2 at time 10 (Video bucket). -/
def wfB : FrameResult :=
  { dt := 10, filename := "b.png", dominant_surface := "YouTube",
    activity := "Video", context_detail := "", confidence := 8/10,
    supporting_surfaces := [], notes := "" }

/-- First witness segment for C8: 20 minutes of work ending at minute 20. -/
def w8s1 : TrigSegment :=
  { segment_id := "S001", startMin := 0, endMin := 20, duration_minutes := 20,
    activity := "Coding" }

/-- Second witness segment for C8: 20 more minutes of work ending at 40. -/
def w8s2 : TrigSegment :=
  { segment_id := "S002", startMin := 20, endMin := 40, duration_minutes := 20,
    activity := "Coding" }

/-! ### General lemmas -/

theorem takeRun_append (bkt : String × String) :
    ∀ l : List FrameResult, (takeRun bkt l).1 ++ (takeRun bkt l).2 = l := by
  intro l
  induction l with
  | nil => simp [takeRun]
  | cons f rest ih =>
    by_cases h : (f.dominant_surface, f.activity) = bkt
    · simp [takeRun, h, ih]
    · simp [takeRun, h]

theorem rnd_half_even_intCast (n : ℤ) : rnd_half_even (n : ℚ) = n := by
  unfold rnd_half_even
  rw [Int.floor_intCast]
  norm_num

/-! ### Claim C7: the interval inferencer -/

/-- C7: `_infer_capture_interval_minutes` returns `max(1, fallback)` for
fewer than two timestamps, and otherwise (whenever at least one positive
consecutive delta exists) the half-to-even-rounded statistical median of
the positive consecutive deltas, floored at 1. -/
theorem C7_interval_inferencer (times : List ℚ) (fallback : ℤ) :
    (times.length < 2 →
      infer_capture_interval_minutes times fallback = max 1 fallback) ∧
    (2 ≤ times.length → positive_deltas times ≠ [] →
      infer_capture_interval_minutes times fallback =
        max 1 (rnd_half_even (median_of (positive_deltas times)))) := by
  constructor
  · intro h
    simp [infer_capture_interval_minutes, h]
  · intro h2 hne
    have hlt : ¬ times.length < 2 := by omega
    rw [infer_capture_interval_minutes, if_neg hlt]
    rw [median_of]
    rw [show (times.zip times.tail).filterMap
        (fun p => if 0 < p.2 - p.1 then some (p.2 - p.1) else none) =
        positive_deltas times from rfl]
    rw [if_neg hne]

/-- C7 witness: three timestamps with deltas 10 and 20; the median is 15. -/
theorem C7_interval_inferencer_witness :
    infer_capture_interval_minutes [0, 10, 30] 5 =
      max 1 (rnd_half_even (median_of (positive_deltas [0, 10, 30]))) :=
  (C7_interval_inferencer [0, 10, 30] 5).2 (by norm_num)
    (by norm_num [positive_deltas, List.filterMap_cons]; simp)

/-! ### Claim C6: empty input -/

/-- C6 counterexample: the `build_timeline` entry point raises
`RuntimeError("No images found ...")` on a day with zero images, so the
end-to-end zero-frame path does not complete normally, contradicting the
claim's "completes normally without raising any error". -/
theorem C6_counterexample :
    build_timeline_images_guard [] = Except.error "No images found" := rfl

/-- C6 (amended): `_merge_frames_into_segments` on zero frames returns an
empty segment list (with the fallback interval) without error, and
`generate_feedback_events` over an empty segment list returns an empty
event list without error; only the `build_timeline` caller treats zero
images as fatal. -/
theorem C6_empty_input (cfg : AppConfig) (simf : String → String → ℚ)
    (hash_idx : String → ℕ) :
    merge_frames_into_segments cfg simf [] =
      ([], max 1 cfg.capture_interval_minutes) ∧
    generate_feedback_events hash_idx [] = [] :=
  ⟨rfl, rfl⟩

/-! ### Claim C10: first-work detector -/

/-- C10: with a freshly constructed tracker (as `generate_feedback_events`
always supplies), `detect_first_work` emits exactly one event precisely
when some work segment exists — anchored at the earliest work segment's
start, with trigger type `first_work` and level `L1` — and none otherwise;
the 24-hour cooldown never suppresses it because the fresh tracker has no
recorded firings. -/
theorem C10_first_work_detector (segments : List TrigSegment) :
    (detect_first_work segments cd_empty).1 =
      (segments.find? (fun s => infer_is_work s)).elim []
        (fun s => [first_work_event s]) ∧
    ∀ s : TrigSegment, (first_work_event s).trigger_type = "first_work" ∧
      (first_work_event s).level = "L1" ∧
      (first_work_event s).time_minute_of_day = s.startMin := by
  refine ⟨?_, fun s => ⟨rfl, rfl, rfl⟩⟩
  induction segments with
  | nil => rfl
  | cons seg rest ih =>
    by_cases h : infer_is_work seg
    · simp [detect_first_work, h, List.find?_cons_of_pos,
        CooldownTracker.can_send, cd_empty]
    · simp [detect_first_work, h, List.find?_cons_of_neg, ih]

/-! ### Claim C4: configuration validation -/

/-- C4 counterexample: no configuration validation exists.  A detector
scan runs to completion — and even emits an event — under a non-positive
anomaly window, and the focus scan runs with an empty threshold list; no
configuration error is ever raised (the detectors are total functions,
and the thresholds/windows are call-site literals, not `AppConfig`
fields validated in `__post_init__`). -/
theorem C4_counterexample :
    (detect_anomaly_switching [c4seg] cd_empty 0 0).1.length = 1 ∧
    (detect_focus_levels (fun _ => 0) [c4seg] cd_empty []).1 = [] := by
  exact ⟨rfl, rfl⟩

/-- C4 (amended): malformed detector parameters are silently accepted: a
focus scan given an empty threshold list completes normally with no
events, for every segment list and tracker. -/
theorem C4_no_validation (hash_idx : String → ℕ) (segments : List TrigSegment)
    (cd : CooldownTracker) :
    (detect_focus_levels hash_idx segments cd []).1 = [] := by
  have hstep : ∀ (st : FocusState) (seg : TrigSegment),
      (focus_segment_step hash_idx [] st seg).events = st.events := by
    intro st seg
    unfold focus_segment_step
    split <;> simp [List.enum]
  have hfold : ∀ (segs : List TrigSegment) (st : FocusState),
      (segs.foldl (focus_segment_step hash_idx []) st).events = st.events := by
    intro segs
    induction segs with
    | nil => intro st; rfl
    | cons s rest ih =>
      intro st
      rw [List.foldl_cons, ih, hstep]
  exact hfold segments _

/-! ### Claim C3: the normalizer's id assignment -/

/-- C3 (amended): the normalizer assigns each kept segment the id
`"S" ++ %03d` of its 1-based position in the sorted list *before* degenerate
entries are dropped (the `enumerate` runs over all entries, dropped ones
included), so ids are strictly increasing but skip a number at every
dropped entry; they are the gapless `S001, S002, …` sequence exactly when
nothing is dropped. -/
theorem C3_ids_of_pre_drop_position (all : List ProvSegment) :
    (normalize_segments all).map (fun s => s.segment_id) =
      ((all.enumFrom 1).filter
        (fun p => 0 < rnd_half_even (p.2.end_dt - p.2.start_dt))).map
        (fun p => "S" ++ pad3n p.1) := by
  suffices h : ∀ (l : List ProvSegment) (n : ℕ),
      ((l.enumFrom n).filterMap normalize_entry).map (fun s => s.segment_id) =
        ((l.enumFrom n).filter
          (fun p => 0 < rnd_half_even (p.2.end_dt - p.2.start_dt))).map
          (fun p => "S" ++ pad3n p.1) by
    exact h all 1
  intro l
  induction l with
  | nil => intro n; rfl
  | cons seg rest ih =>
    intro n
    by_cases hd : rnd_half_even (seg.end_dt - seg.start_dt) ≤ 0
    · have hd2 : ¬ (0 < rnd_half_even (seg.end_dt - seg.start_dt)) := by omega
      simp only [List.enumFrom_cons, List.filterMap_cons, List.filter_cons]
      simp [normalize_entry, hd, hd2]
      exact ih (n + 1)
    · have hd2 : 0 < rnd_half_even (seg.end_dt - seg.start_dt) := by omega
      simp only [List.enumFrom_cons, List.filterMap_cons, List.filter_cons]
      simp [normalize_entry, hd, hd2]
      exact ih (n + 1)

/-- C3 counterexample: with fragments of durations 10, 0, 10 (already in
start order), the zero-duration middle entry is dropped but still consumes
id 2, so the returned ids are `S001, S003` — the second returned segment
does not carry `S002` as the claim requires. -/
theorem C3_counterexample :
    (normalize_segments [c3A, c3B, c3C]).map (fun s => s.segment_id) =
      ["S001", "S003"] ∧
    (normalize_segments [c3A, c3B, c3C]).map (fun s => s.segment_id) ≠
      ["S001", "S002"] := by
  have h10 : rnd_half_even (10 : ℚ) = 10 := by
    have := rnd_half_even_intCast 10
    norm_num at this
    exact this
  have h0 : rnd_half_even (0 : ℚ) = 0 := by
    have := rnd_half_even_intCast 0
    norm_num at this
    exact this
  have h20 : rnd_half_even ((20 : ℚ) - 10) = 10 := by
    norm_num
    exact h10
  constructor
  · simp [normalize_segments, normalize_entry, c3A, c3B, c3C, List.enumFrom,
      List.filterMap_cons, h10, h0, h20, pad3n]
    decide
  · intro h
    have := congrArg (fun l => l.getD 1 "") h
    simp [normalize_segments, normalize_entry, c3A, c3B, c3C, List.enumFrom,
      List.filterMap_cons, h10, h0, h20, pad3n] at this
    exact absurd this (by decide)

/-! ### Claim C9: the idle-carver margin -/

/-- C9 counterexample: with `idle_gap_minutes = 10` and a pair 18 minutes
apart, the code computes `margin = min(5, int(18/4)) = min(5, 4) = 4`
(whole minutes, truncated), yielding the candidate `[4, 14]`, whereas the
claim's formula `margin = min(idle_margin_minutes, gap/4) = 4.5` yields
`[4.5, 13.5]` — so the claim's candidate interval is not the one the
carver computes. -/
theorem C9_counterexample :
    idle_interval_of_pair c9cfg (fun _ _ => 1) (c9fA, c9fB) = some (4, 14, 1) ∧
    claim_idle_interval_of_pair c9cfg (fun _ _ => 1) (c9fA, c9fB) =
      some (9/2, 27/2, 1) ∧
    idle_interval_of_pair c9cfg (fun _ _ => 1) (c9fA, c9fB) ≠
      claim_idle_interval_of_pair c9cfg (fun _ _ => 1) (c9fA, c9fB) := by
  refine ⟨?_, ?_, ?_⟩
  · norm_num [idle_interval_of_pair, c9cfg, c9fA, c9fB, py_int]
  · norm_num [claim_idle_interval_of_pair, c9cfg, c9fA, c9fB]
  · norm_num [idle_interval_of_pair, claim_idle_interval_of_pair, c9cfg,
      c9fA, c9fB, py_int]

/-- C9 (amended): for every pair passing the gap and similarity checks,
the margin is `min(idle_margin_minutes, int(gap/4))` — the quarter-gap is
truncated to whole minutes by `int(...)` before the `min` — and the
candidate interval `[a.time + margin, b.time − margin]` is kept exactly
when its duration is strictly positive. -/
theorem C9_margin_truncated (cfg : AppConfig) (simf : String → String → ℚ)
    (p : FrameResult × FrameResult)
    (h1 : ¬ (p.2.dt - p.1.dt < (cfg.idle_gap_minutes : ℚ)))
    (h2 : ¬ (simf p.1.filename p.2.filename < cfg.idle_similarity_threshold)) :
    idle_interval_of_pair cfg simf p =
      (let margin := min cfg.idle_margin_minutes (py_int ((p.2.dt - p.1.dt) / 4))
       let istart := p.1.dt + (margin : ℚ)
       let iend := p.2.dt - (margin : ℚ)
       if 0 < iend - istart then
         some (istart, iend, simf p.1.filename p.2.filename)
       else none) := by
  simp only [idle_interval_of_pair, if_neg h1, if_neg h2, sub_pos]

/-- C9 witness: under the default configuration, frames 40 minutes apart
with similarity 1 carve the interval `[5, 35]` (margin `min(5, 10) = 5`). -/
theorem C9_margin_truncated_witness :
    idle_interval_of_pair { } (fun _ _ => 1) (w9fA, w9fB) = some (5, 35, 1) := by
  rw [C9_margin_truncated { } (fun _ _ => 1) (w9fA, w9fB)
    (by norm_num [w9fA, w9fB]) (by norm_num [w9fA, w9fB])]
  norm_num [w9fA, w9fB, py_int]

/-! ### Claim C2: pre-carving tiling -/

theorem getLast?_cons_getLastD (f : α) (l : List α) :
    (f :: l).getLast? = some (l.getLastD f) := by
  induction l generalizing f with
  | nil => rfl
  | cons g t ih =>
    rw [List.getLast?_cons_cons, ih g, List.getLastD_cons]

theorem getLastD_append_cons (l1 : List α) (x : α) (l2 : List α) (d : α) :
    (l1 ++ x :: l2).getLastD d = l2.getLastD x := by
  induction l1 generalizing d with
  | nil => rw [List.nil_append, List.getLastD_cons]
  | cons a t ih => rw [List.cons_append, List.getLastD_cons, ih]

theorem takeRun_len (bkt : String × String) :
    ∀ l : List FrameResult, (takeRun bkt l).2.length ≤ l.length := by
  intro l
  induction l with
  | nil => simp [takeRun]
  | cons f rest ih =>
    simp only [takeRun]
    split
    · simpa using Nat.le_succ_of_le ih
    · simp

/-- Structure of the segment-builder output on a non-empty frame list:
it is non-empty; its first segment starts at the first frame's time (or
at the midpoint with the carried previous frame); its last segment ends at
the last frame's time plus the interval; and adjacent segments share a
boundary (`end = next start`). -/
theorem build_initial_spec (interval : ℚ) :
    ∀ (n : ℕ) (frames : List FrameResult) (prev : Option FrameResult),
      frames.length ≤ n → frames ≠ [] →
      ∃ (s0 : ProvSegment) (out' : List ProvSegment) (f0 : FrameResult),
        frames.head? = some f0 ∧
        build_initial_segments interval prev frames = s0 :: out' ∧
        s0.start_dt = (match prev with
          | none => f0.dt
          | some pf => boundary_mid pf.dt f0.dt) ∧
        (s0 :: out').getLast?.map (fun s => s.end_dt) =
          frames.getLast?.map (fun f => f.dt + interval) ∧
        List.Chain' (fun s t => s.end_dt = t.start_dt) (s0 :: out') := by
  intro n
  induction n with
  | zero =>
    intro frames prev hn hne
    cases frames with
    | nil => exact absurd rfl hne
    | cons f rest => simp at hn
  | succ n ih =>
    intro frames prev hn hne
    cases frames with
    | nil => exact absurd rfl hne
    | cons f rest =>
      have hsplit := takeRun_append (f.dominant_surface, f.activity) rest
      have hlen := takeRun_len (f.dominant_surface, f.activity) rest
      rcases h2 : (takeRun (f.dominant_surface, f.activity) rest).2 with _ | ⟨nxt, r2⟩
      · -- the first run swallows all remaining frames
        rw [h2, List.append_nil] at hsplit
        refine ⟨mk_prov_segment (f :: (takeRun (f.dominant_surface, f.activity) rest).1)
            (match prev with
             | none => f.dt
             | some pf => boundary_mid pf.dt f.dt)
            ((((takeRun (f.dominant_surface, f.activity) rest).1.getLastD f).dt) + interval),
          [], f, rfl, ?_, by simp [mk_prov_segment], ?_, by simp⟩
        · unfold build_initial_segments
          simp only [h2]
          unfold build_initial_segments
          rfl
        · simp [mk_prov_segment, getLast?_cons_getLastD, hsplit]
      · -- a later run exists: recurse on the remaining frames
        have hrest : rest.length ≤ n := by simpa using hn
        have hlen2 : (nxt :: r2).length ≤ n := by
          rw [← h2]
          omega
        obtain ⟨s1, out1, f1, hf1, hbuild1, hstart1, hlast1, hchain1⟩ :=
          ih (nxt :: r2)
            (some ((takeRun (f.dominant_surface, f.activity) rest).1.getLastD f))
            hlen2 (by simp)
        have hf1' : f1 = nxt := by
          rw [List.head?_cons] at hf1
          injection hf1 with hx
          exact hx.symm
        rw [hf1'] at hstart1
        refine ⟨mk_prov_segment (f :: (takeRun (f.dominant_surface, f.activity) rest).1)
            (match prev with
             | none => f.dt
             | some pf => boundary_mid pf.dt f.dt)
            (boundary_mid
              (((takeRun (f.dominant_surface, f.activity) rest).1.getLastD f).dt)
              nxt.dt),
          s1 :: out1, f, rfl, ?_, by simp [mk_prov_segment], ?_, ?_⟩
        · unfold build_initial_segments
          simp only [h2]
          rw [hbuild1]
        · rw [List.getLast?_cons_cons, hlast1,
            getLast?_cons_getLastD nxt r2, getLast?_cons_getLastD f rest,
            ← hsplit, h2, getLastD_append_cons]
        · rw [List.chain'_cons]
          refine ⟨?_, hchain1⟩
          rw [hstart1]
          simp [mk_prov_segment]

/-- C2: immediately after the Segment Builder and before idle carving, the
provisional segments tile contiguously: each segment's end equals the next
segment's start, the first segment starts at the first frame's timestamp,
and the last segment ends at the last frame's timestamp plus the inferred
capture interval. -/
theorem C2_provisional_tiling (cfg : AppConfig) (frames : List FrameResult)
    (hne : frames ≠ []) :
    List.Chain' (fun s t => s.end_dt = t.start_dt)
      (provisional_segments cfg frames) ∧
    (provisional_segments cfg frames).head?.map (fun s => s.start_dt) =
      frames.head?.map (fun f => f.dt) ∧
    (provisional_segments cfg frames).getLast?.map (fun s => s.end_dt) =
      frames.getLast?.map (fun f => f.dt +
        ((infer_capture_interval_minutes (frames.map (fun fr => fr.dt))
          cfg.capture_interval_minutes : ℤ) : ℚ)) := by
  obtain ⟨s0, out', f0, hf0, hbuild, hstart, hlast, hchain⟩ :=
    build_initial_spec
      ((infer_capture_interval_minutes (frames.map (fun fr => fr.dt))
        cfg.capture_interval_minutes : ℤ) : ℚ)
      frames.length frames none le_rfl hne
  rw [provisional_segments]
  rw [hbuild]
  refine ⟨hchain, ?_, hlast⟩
  rw [hf0]
  simp [hstart]

/-- C2 witness: two frames at minutes 0 and 10 in different buckets.  The
builder conclusions are instantiated through the theorem itself. -/
theorem C2_provisional_tiling_witness :
    ([wfA, wfB] ≠ ([] : List FrameResult)) ∧
    (List.Chain' (fun s t => s.end_dt = t.start_dt)
      (provisional_segments { } [wfA, wfB]) ∧
    (provisional_segments { } [wfA, wfB]).head?.map (fun s => s.start_dt) =
      [wfA, wfB].head?.map (fun f => f.dt) ∧
    (provisional_segments { } [wfA, wfB]).getLast?.map (fun s => s.end_dt) =
      [wfA, wfB].getLast?.map (fun f => f.dt +
        ((infer_capture_interval_minutes ([wfA, wfB].map (fun fr => fr.dt))
          ({ } : AppConfig).capture_interval_minutes : ℤ) : ℚ))) :=
  ⟨by simp, C2_provisional_tiling { } [wfA, wfB] (by simp)⟩

/-! ### Claim C8: focus levels over a 40-minute work chain -/

theorem lookup_mark_sent_ne (cd : CooldownTracker) (k k2 : String) (t : ℤ)
    (h : k2 ≠ k) :
    (cd.mark_sent k t).last_sent_at.lookup k2 = cd.last_sent_at.lookup k2 := by
  have hb : (k2 == k) = false := beq_eq_false_iff_ne.mpr h
  simp [CooldownTracker.mark_sent, List.lookup, hb]

theorem can_send_of_lookup_none (cd : CooldownTracker) (k : String)
    (now cool : ℤ) (h : cd.last_sent_at.lookup k = none) :
    cd.can_send k now cool = true := by
  simp [CooldownTracker.can_send, h]

/-- One pass of the inner threshold loop, characterized by whether the
threshold is newly reached: with the invariant that `lv` is emitted iff
`th ≤ c` and that un-emitted levels have never fired, the step fires
exactly when the accumulated minutes reach `th` while `th > c`. -/
theorem focus_threshold_step_char (hash_idx : String → ℕ) (seg : TrigSegment)
    (st : FocusState) (i : ℕ) (th c : ℤ) (lv : String)
    (hLv : "L" ++ toString (i + 1) = lv)
    (hmem : (lv ∈ st.emitted) ↔ th ≤ c)
    (hcd : ¬ th ≤ c → st.cd.last_sent_at.lookup ("focus_" ++ lv) = none) :
    focus_threshold_step hash_idx seg st (i, th) =
      if th ≤ st.consecutive ∧ ¬ th ≤ c then
        { st with
          events := st.events ++
            [focus_event hash_idx seg th lv st.chain_ids st.cur_project]
          emitted := lv :: st.emitted
          cd := st.cd.mark_sent ("focus_" ++ lv) seg.endMin }
      else st := by
  simp only [focus_threshold_step, hLv]
  by_cases hth : th ≤ st.consecutive
  · by_cases hc : th ≤ c
    · rw [if_neg (by simp [hmem.mpr hc]), if_neg (by simp [hc])]
    · rw [if_pos ⟨hth, fun hm => hc (hmem.mp hm),
          by rw [can_send_of_lookup_none _ _ _ _ (hcd hc)]⟩,
        if_pos ⟨hth, hc⟩]
  · rw [if_neg (by simp [hth]), if_neg (by simp [hth])]

/-- Effect of the whole inner threshold loop for an arbitrary (distinct)
level list, from a state whose emitted set and cooldown ledger reflect an
accumulated total of `c` while `consecutive` already holds the new total
`c'`: exactly the newly reached thresholds fire, in list order, each
anchored at the segment's end. -/
theorem focus_inner_fold_generic (hash_idx : String → ℕ) (seg : TrigSegment) :
    ∀ (lvl : List (ℕ × ℤ)) (st : FocusState) (c c' : ℤ),
      st.consecutive = c' → c ≤ c' →
      (∀ q ∈ lvl, (("L" ++ toString (q.1 + 1)) ∈ st.emitted) ↔ q.2 ≤ c) →
      (∀ q ∈ lvl, ¬ q.2 ≤ c →
        st.cd.last_sent_at.lookup ("focus_" ++ ("L" ++ toString (q.1 + 1))) = none) →
      List.Pairwise (fun a b =>
        ("L" ++ toString (a.1 + 1)) ≠ ("L" ++ toString (b.1 + 1)) ∧
        ("focus_" ++ ("L" ++ toString (a.1 + 1))) ≠
          ("focus_" ++ ("L" ++ toString (b.1 + 1)))) lvl →
      ((lvl.foldl (focus_threshold_step hash_idx seg) st).events.map
          (fun e => (e.level, e.time_minute_of_day, e.trigger_type)) =
        st.events.map (fun e => (e.level, e.time_minute_of_day, e.trigger_type)) ++
          lvl.flatMap (fun q =>
            if q.2 ≤ c' ∧ ¬ q.2 ≤ c then
              [("L" ++ toString (q.1 + 1), seg.endMin, "focus")]
            else [])) ∧
      (∀ lv : String, (∀ q ∈ lvl, lv ≠ "L" ++ toString (q.1 + 1)) →
        ((lv ∈ (lvl.foldl (focus_threshold_step hash_idx seg) st).emitted) ↔
          (lv ∈ st.emitted))) ∧
      (∀ k : String, (∀ q ∈ lvl, k ≠ "focus_" ++ ("L" ++ toString (q.1 + 1))) →
        (lvl.foldl (focus_threshold_step hash_idx seg) st).cd.last_sent_at.lookup k =
          st.cd.last_sent_at.lookup k) ∧
      (∀ q ∈ lvl, (("L" ++ toString (q.1 + 1)) ∈
          (lvl.foldl (focus_threshold_step hash_idx seg) st).emitted) ↔ q.2 ≤ c') ∧
      (∀ q ∈ lvl, ¬ q.2 ≤ c' →
        (lvl.foldl (focus_threshold_step hash_idx seg) st).cd.last_sent_at.lookup
          ("focus_" ++ ("L" ++ toString (q.1 + 1))) = none) ∧
      (lvl.foldl (focus_threshold_step hash_idx seg) st).consecutive =
        st.consecutive := by
  intro lvl
  induction lvl with
  | nil =>
    intro st c c' hcons hcc hmem hcd hdist
    simp
  | cons q rest ih =>
    intro st c c' hcons hcc hmem hcd hdist
    rw [List.pairwise_cons] at hdist
    obtain ⟨hq, hdist2⟩ := hdist
    rw [List.foldl_cons,
      focus_threshold_step_char hash_idx seg st q.1 q.2 c _ rfl
        (hmem q (List.mem_cons_self _ _)) (hcd q (List.mem_cons_self _ _))]
    by_cases hF : q.2 ≤ st.consecutive ∧ ¬ q.2 ≤ c
    · rw [if_pos hF]
      have hmem2 : ∀ q2 ∈ rest,
          (("L" ++ toString (q2.1 + 1)) ∈
            ("L" ++ toString (q.1 + 1)) :: st.emitted) ↔ q2.2 ≤ c := by
        intro q2 hq2
        rw [List.mem_cons]
        have := (hq q2 hq2).1
        constructor
        · rintro (h | h)
          · exact absurd h.symm this
          · exact (hmem q2 (List.mem_cons_of_mem _ hq2)).mp h
        · intro h
          exact Or.inr ((hmem q2 (List.mem_cons_of_mem _ hq2)).mpr h)
      have hcd2 : ∀ q2 ∈ rest, ¬ q2.2 ≤ c →
          (st.cd.mark_sent ("focus_" ++ ("L" ++ toString (q.1 + 1)))
            seg.endMin).last_sent_at.lookup
            ("focus_" ++ ("L" ++ toString (q2.1 + 1))) = none := by
        intro q2 hq2 hle
        rw [lookup_mark_sent_ne _ _ _ _ (fun h => (hq q2 hq2).2 h.symm)]
        exact hcd q2 (List.mem_cons_of_mem _ hq2) hle
      obtain ⟨ih0, ih1, ih2, ih3, ih4, ih5⟩ :=
        ih { st with
              events := st.events ++
                [focus_event hash_idx seg q.2 ("L" ++ toString (q.1 + 1))
                  st.chain_ids st.cur_project]
              emitted := ("L" ++ toString (q.1 + 1)) :: st.emitted
              cd := st.cd.mark_sent ("focus_" ++ ("L" ++ toString (q.1 + 1)))
                seg.endMin }
          c c' hcons hcc hmem2 hcd2 hdist2
      refine ⟨?_, ?_, ?_, ?_, ?_, ?_⟩
      · rw [ih0]
        rw [List.flatMap_cons, if_pos ⟨hcons ▸ hF.1, hF.2⟩]
        simp [focus_event]
      · intro lv hlv
        rw [ih1 lv (fun q2 hq2 => hlv q2 (List.mem_cons_of_mem _ hq2))]
        simp only [List.mem_cons]
        constructor
        · rintro (h | h)
          · exact absurd h (hlv q (List.mem_cons_self _ _))
          · exact h
        · exact Or.inr
      · intro k hk
        rw [ih2 k (fun q2 hq2 => hk q2 (List.mem_cons_of_mem _ hq2))]
        exact lookup_mark_sent_ne _ _ _ _ (hk q (List.mem_cons_self _ _))
      · intro q2 hq2
        rcases List.mem_cons.mp hq2 with rfl | h
        · rw [ih1 _ (fun q3 hq3 => (hq q3 hq3).1)]
          exact ⟨fun _ => hcons ▸ hF.1, fun _ => List.mem_cons_self _ _⟩
        · exact ih3 q2 h
      · intro q2 hq2 hle
        rcases List.mem_cons.mp hq2 with rfl | h
        · exact absurd (hcons ▸ hF.1) hle
        · exact ih4 q2 h hle
      · rw [ih5]
    · rw [if_neg hF]
      obtain ⟨ih0, ih1, ih2, ih3, ih4, ih5⟩ :=
        ih st c c' hcons hcc
          (fun q2 hq2 => hmem q2 (List.mem_cons_of_mem _ hq2))
          (fun q2 hq2 => hcd q2 (List.mem_cons_of_mem _ hq2)) hdist2
      have hFc : ¬ (q.2 ≤ c' ∧ ¬ q.2 ≤ c) := by
        rw [← hcons]
        exact hF
      refine ⟨?_, ?_, ?_, ?_, ?_, ih5⟩
      · rw [ih0, List.flatMap_cons, if_neg hFc]
        simp
      · intro lv hlv
        exact ih1 lv (fun q2 hq2 => hlv q2 (List.mem_cons_of_mem _ hq2))
      · intro k hk
        exact ih2 k (fun q2 hq2 => hk q2 (List.mem_cons_of_mem _ hq2))
      · intro q2 hq2
        rcases List.mem_cons.mp hq2 with rfl | h
        · rw [ih1 _ (fun q3 hq3 => (hq q3 hq3).1)]
          rw [hmem q2 (List.mem_cons_self _ _)]
          constructor
          · intro h2
            exact le_trans h2 hcc
          · intro h2
            by_contra h3
            exact hF ⟨hcons ▸ h2, fun h4 => h3 h4⟩
        · exact ih3 q2 h
      · intro q2 hq2 hle
        rcases List.mem_cons.mp hq2 with rfl | h
        · rw [ih2 _ (fun q3 hq3 => (hq q3 hq3).2)]
          refine hcd q2 (List.mem_cons_self _ _) ?_
          intro h4
          exact hle (le_trans h4 hcc)
        · exact ih4 q2 h hle

/-- Peeling one all-work segment off the pending-events list: thresholds
crossed by this segment anchor at its end; the rest stay pending. -/
theorem focus_pending_cons (c : ℤ) (s : TrigSegment) (rest : List TrigSegment)
    (hd : 0 ≤ s.duration_minutes) :
    focus_pending c (s :: rest) =
      ((if (15:ℤ) ≤ c + s.duration_minutes ∧ ¬ (15:ℤ) ≤ c then
          [("L1", s.endMin)] else []) ++
       (if (25:ℤ) ≤ c + s.duration_minutes ∧ ¬ (25:ℤ) ≤ c then
          [("L2", s.endMin)] else []) ++
       (if (40:ℤ) ≤ c + s.duration_minutes ∧ ¬ (40:ℤ) ≤ c then
          [("L3", s.endMin)] else [])) ++
      focus_pending (c + s.duration_minutes) rest := by
  by_cases h15 : (15:ℤ) ≤ c
  · have h15b : (15:ℤ) ≤ c + s.duration_minutes := by omega
    by_cases h25 : (25:ℤ) ≤ c
    · have h25b : (25:ℤ) ≤ c + s.duration_minutes := by omega
      by_cases h40 : (40:ℤ) ≤ c
      · have h40b : (40:ℤ) ≤ c + s.duration_minutes := by omega
        simp [focus_pending, first_cross_from, List.filterMap_cons, h15, h25, h40, h15b, h25b, h40b]
      · by_cases h40b : (40:ℤ) ≤ c + s.duration_minutes
        · simp [focus_pending, first_cross_from, List.filterMap_cons, h15, h25, h40, h15b, h25b, h40b]
        · simp [focus_pending, first_cross_from, List.filterMap_cons, h15, h25, h40, h15b, h25b, h40b]
    · by_cases h25b : (25:ℤ) ≤ c + s.duration_minutes
      · have h40 : ¬ (40:ℤ) ≤ c := by omega
        by_cases h40b : (40:ℤ) ≤ c + s.duration_minutes
        · simp [focus_pending, first_cross_from, List.filterMap_cons, h15, h25, h40, h15b, h25b, h40b]
        · simp [focus_pending, first_cross_from, List.filterMap_cons, h15, h25, h40, h15b, h25b, h40b]
      · have h40 : ¬ (40:ℤ) ≤ c := by omega
        have h40b : ¬ (40:ℤ) ≤ c + s.duration_minutes := by omega
        simp [focus_pending, first_cross_from, List.filterMap_cons, h15, h25, h40, h15b, h25b, h40b]
  · by_cases h15b : (15:ℤ) ≤ c + s.duration_minutes
    · have h25 : ¬ (25:ℤ) ≤ c := by omega
      have h40 : ¬ (40:ℤ) ≤ c := by omega
      by_cases h25b : (25:ℤ) ≤ c + s.duration_minutes
      · by_cases h40b : (40:ℤ) ≤ c + s.duration_minutes
        · simp [focus_pending, first_cross_from, List.filterMap_cons, h15, h25, h40, h15b, h25b, h40b]
        · simp [focus_pending, first_cross_from, List.filterMap_cons, h15, h25, h40, h15b, h25b, h40b]
      · have h40b : ¬ (40:ℤ) ≤ c + s.duration_minutes := by omega
        simp [focus_pending, first_cross_from, List.filterMap_cons, h15, h25, h40, h15b, h25b, h40b]
    · have h25 : ¬ (25:ℤ) ≤ c := by omega
      have h40 : ¬ (40:ℤ) ≤ c := by omega
      have h25b : ¬ (25:ℤ) ≤ c + s.duration_minutes := by omega
      have h40b : ¬ (40:ℤ) ≤ c + s.duration_minutes := by omega
      simp [focus_pending, first_cross_from, List.filterMap_cons, h15, h25, h40, h15b, h25b, h40b]

/-- The focus scan over an all-work chain, with thresholds `[15, 25, 40]`:
starting from a state reflecting `c` accumulated minutes (per the emitted
set and cooldown ledger), the events appended are exactly the pending
threshold crossings of the chain, in ascending level order. -/
theorem focus_scan_spec (hash_idx : String → ℕ) :
    ∀ (segs : List TrigSegment) (st : FocusState) (c : ℤ),
      (∀ s ∈ segs, infer_is_work s = true) →
      (∀ s ∈ segs, 0 ≤ s.duration_minutes) →
      st.consecutive = c →
      (("L1" ∈ st.emitted) ↔ (15:ℤ) ≤ c) →
      (("L2" ∈ st.emitted) ↔ (25:ℤ) ≤ c) →
      (("L3" ∈ st.emitted) ↔ (40:ℤ) ≤ c) →
      (¬ (15:ℤ) ≤ c → st.cd.last_sent_at.lookup "focus_L1" = none) →
      (¬ (25:ℤ) ≤ c → st.cd.last_sent_at.lookup "focus_L2" = none) →
      (¬ (40:ℤ) ≤ c → st.cd.last_sent_at.lookup "focus_L3" = none) →
      (segs.foldl (focus_segment_step hash_idx [15, 25, 40]) st).events.map
          (fun e => (e.level, e.time_minute_of_day, e.trigger_type)) =
        st.events.map (fun e => (e.level, e.time_minute_of_day, e.trigger_type)) ++
          (focus_pending c segs).map (fun q => (q.1, q.2, "focus")) := by
  intro segs
  induction segs with
  | nil =>
    intro st c hw hd hcons hm1 hm2 hm3 hc1 hc2 hc3
    simp [focus_pending, first_cross_from]
  | cons s rest ih =>
    intro st c hw hd hcons hm1 hm2 hm3 hc1 hc2 hc3
    have hws : infer_is_work s = true := hw s (List.mem_cons_self _ _)
    have hds : 0 ≤ s.duration_minutes := hd s (List.mem_cons_self _ _)
    rw [List.foldl_cons]
    have hstep : focus_segment_step hash_idx [15, 25, 40] st s =
        ([((0:ℕ),(15:ℤ)), (1,25), (2,40)]).foldl (focus_threshold_step hash_idx s)
          { st with
            consecutive := st.consecutive + s.duration_minutes
            chain_ids := st.chain_ids ++ [s.segment_id]
            cur_project := (infer_project_id s).or st.cur_project } := by
      simp only [focus_segment_step, hws, if_true]
      rfl
    rw [hstep]
    obtain ⟨ih0, ih1, ih2, ih3, ih4, ih5⟩ :=
      focus_inner_fold_generic hash_idx s [((0:ℕ),(15:ℤ)), (1,25), (2,40)]
        { st with
          consecutive := st.consecutive + s.duration_minutes
          chain_ids := st.chain_ids ++ [s.segment_id]
          cur_project := (infer_project_id s).or st.cur_project }
        c (c + s.duration_minutes)
        (by simp [hcons])
        (by omega)
        (by
          intro q hq
          fin_cases hq
          · exact hm1
          · exact hm2
          · exact hm3)
        (by
          intro q hq
          fin_cases hq
          · exact hc1
          · exact hc2
          · exact hc3)
        (by decide)
    have e1 : ("L" ++ toString (0 + 1) : String) = "L1" := rfl
    have e2 : ("L" ++ toString (1 + 1) : String) = "L2" := rfl
    have e3 : ("L" ++ toString (2 + 1) : String) = "L3" := rfl
    have k1 : ("focus_" ++ ("L" ++ toString (0 + 1)) : String) = "focus_L1" := rfl
    have k2 : ("focus_" ++ ("L" ++ toString (1 + 1)) : String) = "focus_L2" := rfl
    have k3 : ("focus_" ++ ("L" ++ toString (2 + 1)) : String) = "focus_L3" := rfl
    have hm1b := ih3 ((0:ℕ),(15:ℤ)) (by decide)
    rw [e1] at hm1b
    have hm2b := ih3 ((1:ℕ),(25:ℤ)) (by decide)
    rw [e2] at hm2b
    have hm3b := ih3 ((2:ℕ),(40:ℤ)) (by decide)
    rw [e3] at hm3b
    have hc1b := ih4 ((0:ℕ),(15:ℤ)) (by decide)
    rw [k1] at hc1b
    have hc2b := ih4 ((1:ℕ),(25:ℤ)) (by decide)
    rw [k2] at hc2b
    have hc3b := ih4 ((2:ℕ),(40:ℤ)) (by decide)
    rw [k3] at hc3b
    have hcons2 : (([((0:ℕ),(15:ℤ)), (1,25), (2,40)]).foldl
        (focus_threshold_step hash_idx s)
        { st with
          consecutive := st.consecutive + s.duration_minutes
          chain_ids := st.chain_ids ++ [s.segment_id]
          cur_project := (infer_project_id s).or st.cur_project }).consecutive =
        c + s.duration_minutes := by
      rw [ih5]
      simp [hcons]
    rw [ih _ (c + s.duration_minutes)
      (fun x hx => hw x (List.mem_cons_of_mem _ hx))
      (fun x hx => hd x (List.mem_cons_of_mem _ hx))
      hcons2 hm1b hm2b hm3b hc1b hc2b hc3b]
    rw [ih0, focus_pending_cons c s rest hds]
    simp only [List.flatMap_cons, List.flatMap_nil, List.map_append,
      List.append_nil, List.append_assoc, apply_ite (List.map
        (fun q : String × ℤ => (q.1, q.2, "focus"))), List.map_cons,
      List.map_nil, e1, e2, e3, hcons]

theorem first_cross_from_isSome :
    ∀ (segs : List TrigSegment) (c th : ℤ),
      (∀ s ∈ segs, 0 ≤ s.duration_minutes) →
      th ≤ c + (segs.map (fun s => s.duration_minutes)).sum → ¬ th ≤ c →
      ∃ t, first_cross_from c th segs = some t := by
  intro segs
  induction segs with
  | nil =>
    intro c th hd hsum hc
    simp at hsum
    exact absurd hsum hc
  | cons s rest ih =>
    intro c th hd hsum hc
    by_cases hcross : th ≤ c + s.duration_minutes
    · exact ⟨s.endMin, by rw [first_cross_from, if_pos hcross]⟩
    · obtain ⟨t, ht⟩ := ih (c + s.duration_minutes) th
        (fun x hx => hd x (List.mem_cons_of_mem _ hx))
        (by simp at hsum ⊢; omega) hcross
      exact ⟨t, by rw [first_cross_from, if_neg hcross, ht]⟩

/-- C8: over any contiguous all-work chain totalling exactly 40 minutes,
`detect_focus_levels` with thresholds `[15, 25, 40]` and a fresh tracker
emits exactly three events — one per level, each exactly once, in
ascending level order — each anchored at the end minute of the segment
whose accumulated duration first reached that level's threshold. -/
theorem C8_focus_three_levels (hash_idx : String → ℕ) (segs : List TrigSegment)
    (hwork : ∀ s ∈ segs, infer_is_work s = true)
    (hdur : ∀ s ∈ segs, 0 ≤ s.duration_minutes)
    (hsum : (segs.map (fun s => s.duration_minutes)).sum = 40) :
    (detect_focus_levels hash_idx segs cd_empty [15, 25, 40]).1.map
        (fun e => (e.level, some e.time_minute_of_day, e.trigger_type)) =
      [("L1", first_cross_from 0 15 segs, "focus"),
       ("L2", first_cross_from 0 25 segs, "focus"),
       ("L3", first_cross_from 0 40 segs, "focus")] := by
  obtain ⟨t1, ht1⟩ := first_cross_from_isSome segs 0 15 hdur (by omega) (by omega)
  obtain ⟨t2, ht2⟩ := first_cross_from_isSome segs 0 25 hdur (by omega) (by omega)
  obtain ⟨t3, ht3⟩ := first_cross_from_isSome segs 0 40 hdur (by omega) (by omega)
  have hmain := focus_scan_spec hash_idx segs
    { events := [], consecutive := 0, emitted := [], chain_ids := [],
      cur_project := none, cd := cd_empty } 0 hwork hdur rfl
    (by simp) (by simp) (by simp)
    (fun _ => rfl) (fun _ => rfl) (fun _ => rfl)
  have hpend : focus_pending 0 segs = [("L1", t1), ("L2", t2), ("L3", t3)] := by
    simp [focus_pending, ht1, ht2, ht3]
  rw [hpend] at hmain
  have hproj : (detect_focus_levels hash_idx segs cd_empty [15, 25, 40]).1.map
      (fun e => (e.level, e.time_minute_of_day, e.trigger_type)) =
      [("L1", t1, "focus"), ("L2", t2, "focus"), ("L3", t3, "focus")] := by
    simpa using hmain
  rw [ht1, ht2, ht3]
  have hg : (fun e : FeedbackEvent =>
      (e.level, some e.time_minute_of_day, e.trigger_type)) =
      (fun x : String × ℤ × String => (x.1, some x.2.1, x.2.2)) ∘
        (fun e : FeedbackEvent =>
          (e.level, e.time_minute_of_day, e.trigger_type)) := rfl
  rw [hg, ← List.map_map, hproj]
  rfl

/-- C8 witness: two consecutive 20-minute work segments (total 40) with a
fresh tracker emit L1 at minute 20 and L2, L3 at minute 40. -/
theorem C8_focus_three_levels_witness :
    (detect_focus_levels (fun _ => 0) [w8s1, w8s2] cd_empty [15, 25, 40]).1.map
        (fun e => (e.level, some e.time_minute_of_day, e.trigger_type)) =
      [("L1", first_cross_from 0 15 [w8s1, w8s2], "focus"),
       ("L2", first_cross_from 0 25 [w8s1, w8s2], "focus"),
       ("L3", first_cross_from 0 40 [w8s1, w8s2], "focus")] :=
  C8_focus_three_levels (fun _ => 0) [w8s1, w8s2] (by decide) (by decide)
    (by decide)

/-! ### Claim C5: anomaly-switching window counting -/

theorem flip_seed_some (c : Bool) :
    ∀ l : List Bool, flip_seed (some c) l = flip_count (c :: l) := by
  intro l
  induction l generalizing c with
  | nil => rfl
  | cons d t ih =>
    rw [flip_seed, ih d, flip_count]
    congr 1
    by_cases h : c = d
    · simp [h]
    · simp [h, Ne.symm h]

theorem flip_seed_none (l : List Bool) : flip_seed none l = flip_count l := by
  cases l with
  | nil => rfl
  | cons c t => rw [flip_seed, flip_seed_some]

theorem flip_seed_cons (pv : Option Bool) (c : Bool) (l : List Bool) :
    flip_seed pv (c :: l) = flip_seed pv [c] + flip_seed (some c) l := by
  cases pv with
  | none => simp [flip_seed]
  | some p => simp [flip_seed, Nat.add_assoc]

theorem split_window_ne_nil (W ws : ℤ) :
    ∀ (l w r : List TrigSegment), split_window W ws l = some (w, r) → w ≠ [] := by
  intro l
  induction l with
  | nil => intro w r h; simp [split_window] at h
  | cons s rest ih =>
    intro w r h
    simp only [split_window] at h
    split at h
    · injection h with h1
      injection h1 with h2 h3
      rw [← h2]
      simp
    · revert h
      split
      next w0 r0 heq =>
        intro h
        injection h with h1
        injection h1 with h2 h3
        rw [← h2]
        simp
      next =>
        intro h
        exact absurd h (by simp)

theorem window_eval_from_cons (sw : ℤ) (pv : Option Bool) (ids : List String)
    (th : ℤ) (acc : List FeedbackEvent × CooldownTracker) (s : TrigSegment)
    (w0 : List TrigSegment) (hne : w0 ≠ []) :
    window_eval_from sw pv ids th acc (s :: w0) =
      window_eval_from (sw + (flip_seed pv [infer_is_work s] : ℤ))
        (some (infer_is_work s)) (ids ++ [s.segment_id]) th acc w0 := by
  obtain ⟨x, xs, rfl⟩ : ∃ x xs, w0 = x :: xs := by
    cases w0 with
    | nil => exact absurd rfl hne
    | cons x xs => exact ⟨x, xs, rfl⟩
  unfold window_eval_from
  rw [List.getLast?_cons_cons]
  rw [getLast?_cons_getLastD x xs]
  have hsw : sw + (flip_seed pv (List.map infer_is_work (s :: x :: xs)) : ℤ) =
      sw + (flip_seed pv [infer_is_work s] : ℤ) +
        (flip_seed (some (infer_is_work s))
          (List.map infer_is_work (x :: xs)) : ℤ) := by
    rw [List.map_cons, flip_seed_cons]
    push_cast
    ring
  rw [hsw]
  have hids : ids ++ List.map (fun s2 => s2.segment_id) (s :: x :: xs) =
      (ids ++ [s.segment_id]) ++ List.map (fun s2 => s2.segment_id) (x :: xs) := by
    simp
  rw [hids]

theorem step_switch_eq (sw : ℤ) (pv : Option Bool) (cur : Bool) :
    (match pv with
      | some p => if cur ≠ p then sw + 1 else sw
      | none => sw) = sw + (flip_seed pv [cur] : ℤ) := by
  cases pv with
  | none => simp [flip_seed]
  | some p => by_cases h : cur ≠ p <;> simp [flip_seed, h]

theorem anomaly_step_far (W th : ℤ) (s : TrigSegment) (ev : List FeedbackEvent)
    (sw : ℤ) (pv : Option Bool) (ids : List String) (cd : CooldownTracker)
    (wstart : ℤ) (hclose : ¬ W ≤ s.endMin - wstart) :
    anomaly_segment_step W th ⟨ev, sw, pv, some wstart, ids, cd⟩ s =
      ⟨ev, sw + (flip_seed pv [infer_is_work s] : ℤ), some (infer_is_work s),
       some wstart, ids ++ [s.segment_id], cd⟩ := by
  simp only [anomaly_segment_step, Option.getD_some]
  rw [step_switch_eq, if_neg hclose]

theorem anomaly_step_close (W th : ℤ) (s : TrigSegment) (ev : List FeedbackEvent)
    (sw : ℤ) (pv : Option Bool) (ids : List String) (cd : CooldownTracker)
    (wstart : ℤ) (hclose : W ≤ s.endMin - wstart) :
    anomaly_segment_step W th ⟨ev, sw, pv, some wstart, ids, cd⟩ s =
      if th ≤ sw + (flip_seed pv [infer_is_work s] : ℤ) ∧
          cd.can_send "anomaly_switching" s.endMin 180 then
        ⟨ev ++ [anomaly_event s (ids ++ [s.segment_id])], 0, none, none, [],
         cd.mark_sent "anomaly_switching" s.endMin⟩
      else ⟨ev, 0, none, none, [], cd⟩ := by
  simp only [anomaly_segment_step, Option.getD_some]
  rw [step_switch_eq, if_pos hclose]

theorem window_eval_single (sw : ℤ) (pv : Option Bool) (ids : List String)
    (th : ℤ) (ev : List FeedbackEvent) (cd : CooldownTracker) (s : TrigSegment) :
    window_eval_from sw pv ids th (ev, cd) [s] =
      if th ≤ sw + (flip_seed pv [infer_is_work s] : ℤ) ∧
          cd.can_send "anomaly_switching" s.endMin 180 then
        (ev ++ [anomaly_event s (ids ++ [s.segment_id])],
         cd.mark_sent "anomaly_switching" s.endMin)
      else (ev, cd) := by
  unfold window_eval_from
  simp

theorem anomaly_consume_none (W th : ℤ) :
    ∀ (segs : List TrigSegment) (ev : List FeedbackEvent) (sw : ℤ)
      (pv : Option Bool) (ids : List String) (cd : CooldownTracker) (wstart : ℤ),
      split_window W wstart segs = none →
      segs.foldl (anomaly_segment_step W th) ⟨ev, sw, pv, some wstart, ids, cd⟩ =
        { events := ev, cd := cd,
          switches :=
            (segs.foldl (anomaly_segment_step W th)
              ⟨ev, sw, pv, some wstart, ids, cd⟩).switches,
          prev :=
            (segs.foldl (anomaly_segment_step W th)
              ⟨ev, sw, pv, some wstart, ids, cd⟩).prev,
          window_start :=
            (segs.foldl (anomaly_segment_step W th)
              ⟨ev, sw, pv, some wstart, ids, cd⟩).window_start,
          window_ids :=
            (segs.foldl (anomaly_segment_step W th)
              ⟨ev, sw, pv, some wstart, ids, cd⟩).window_ids } := by
  intro segs
  induction segs with
  | nil =>
    intro ev sw pv ids cd wstart h
    rfl
  | cons s rest ih =>
    intro ev sw pv ids cd wstart h
    simp only [split_window] at h
    by_cases hclose : W ≤ s.endMin - wstart
    · rw [if_pos hclose] at h
      simp at h
    · rw [if_neg hclose] at h
      rcases heq : split_window W wstart rest with _ | p
      · rw [List.foldl_cons, anomaly_step_far W th s ev sw pv ids cd wstart hclose]
        exact ih ev _ _ _ cd wstart heq
      · rw [heq] at h
        simp at h

theorem anomaly_consume_some (W th : ℤ) :
    ∀ (segs w r : List TrigSegment) (ev : List FeedbackEvent) (sw : ℤ)
      (pv : Option Bool) (ids : List String) (cd : CooldownTracker) (wstart : ℤ),
      split_window W wstart segs = some (w, r) →
      segs.foldl (anomaly_segment_step W th) ⟨ev, sw, pv, some wstart, ids, cd⟩ =
        r.foldl (anomaly_segment_step W th)
          ⟨(window_eval_from sw pv ids th (ev, cd) w).1, 0, none, none, [],
           (window_eval_from sw pv ids th (ev, cd) w).2⟩ := by
  intro segs
  induction segs with
  | nil =>
    intro w r ev sw pv ids cd wstart h
    simp [split_window] at h
  | cons s rest ih =>
    intro w r ev sw pv ids cd wstart h
    simp only [split_window] at h
    by_cases hclose : W ≤ s.endMin - wstart
    · rw [if_pos hclose] at h
      injection h with h1
      injection h1 with h2 h3
      subst h2
      subst h3
      rw [List.foldl_cons,
        anomaly_step_close W th s ev sw pv ids cd wstart hclose,
        window_eval_single]
      by_cases hfire : th ≤ sw + (flip_seed pv [infer_is_work s] : ℤ) ∧
          cd.can_send "anomaly_switching" s.endMin 180
      · rw [if_pos hfire, if_pos hfire]
      · rw [if_neg hfire, if_neg hfire]
    · rw [if_neg hclose] at h
      rcases heq : split_window W wstart rest with _ | ⟨w0, r0⟩
      · rw [heq] at h
        simp at h
      · rw [heq] at h
        injection h with h1
        injection h1 with h2 h3
        subst h2
        subst h3
        rw [List.foldl_cons, anomaly_step_far W th s ev sw pv ids cd wstart hclose,
          ih w0 r0 ev _ _ _ cd wstart heq,
          window_eval_from_cons sw pv ids th (ev, cd) s w0
            (split_window_ne_nil W wstart rest w0 r0 heq)]

theorem anomaly_start_agnostic (W th : ℤ) (s : TrigSegment)
    (rest : List TrigSegment) (ev : List FeedbackEvent) (sw : ℤ)
    (pv : Option Bool) (ids : List String) (cd : CooldownTracker) :
    (s :: rest).foldl (anomaly_segment_step W th) ⟨ev, sw, pv, none, ids, cd⟩ =
      (s :: rest).foldl (anomaly_segment_step W th)
        ⟨ev, sw, pv, some s.startMin, ids, cd⟩ := by
  rw [List.foldl_cons, List.foldl_cons]
  congr 1

theorem anomaly_windows_eq_some (W : ℤ) (s : TrigSegment)
    (rest w r : List TrigSegment)
    (h : split_window W s.startMin (s :: rest) = some (w, r)) :
    anomaly_windows W (s :: rest) = w :: anomaly_windows W r := by
  conv_lhs => unfold anomaly_windows
  split
  next w0 r0 heq =>
    rw [heq] at h
    injection h with h1
    injection h1 with h2 h3
    rw [h2, h3]
  next heq =>
    rw [heq] at h
    simp at h

theorem anomaly_windows_eq_none (W : ℤ) (s : TrigSegment)
    (rest : List TrigSegment)
    (h : split_window W s.startMin (s :: rest) = none) :
    anomaly_windows W (s :: rest) = [] := by
  conv_lhs => unfold anomaly_windows
  split
  next w0 r0 heq =>
    rw [heq] at h
    simp at h
  next => rfl

theorem anomaly_windows_nil (W : ℤ) : anomaly_windows W [] = [] := by
  unfold anomaly_windows
  rfl

theorem anomaly_fold_windows (W th : ℤ) :
    ∀ (n : ℕ) (segs : List TrigSegment) (ev : List FeedbackEvent)
      (cd : CooldownTracker), segs.length ≤ n →
      ((segs.foldl (anomaly_segment_step W th)
          ⟨ev, 0, none, none, [], cd⟩).events,
       (segs.foldl (anomaly_segment_step W th)
          ⟨ev, 0, none, none, [], cd⟩).cd) =
        (anomaly_windows W segs).foldl (window_eval_from 0 none [] th) (ev, cd) := by
  intro n
  induction n with
  | zero =>
    intro segs ev cd hn
    have : segs = [] := List.length_eq_zero.mp (Nat.le_zero.mp hn)
    subst this
    rw [anomaly_windows_nil]
    rfl
  | succ m ih =>
    intro segs ev cd hn
    cases segs with
    | nil =>
      rw [anomaly_windows_nil]
      rfl
    | cons s rest =>
      rcases heq : split_window W s.startMin (s :: rest) with _ | ⟨w, r⟩
      · rw [anomaly_windows_eq_none W s rest heq, List.foldl_nil,
          anomaly_start_agnostic,
          anomaly_consume_none W th (s :: rest) ev 0 none [] cd s.startMin heq]
      · rw [anomaly_windows_eq_some W s rest w r heq,
          anomaly_start_agnostic,
          anomaly_consume_some W th (s :: rest) w r ev 0 none [] cd s.startMin heq,
          List.foldl_cons]
        have hr : r.length ≤ m := by
          have := split_window_len W s.startMin (s :: rest) w r heq
          simp only [List.length_cons] at this hn
          omega
        have := ih r (window_eval_from 0 none [] th (ev, cd) w).1
          (window_eval_from 0 none [] th (ev, cd) w).2 hr
        rw [this, Prod.mk.eta]

/-- C5 (corrected): the anomaly_switching scan is equivalent to cutting the
segment list into disjoint complete windows and evaluating each window in
isolation: the switch counter compared against the threshold at a window's
close counts exactly the flips of the work/non-work boolean between
consecutive segments WITHIN that window (the seeded flip count from an
empty `prev` is the plain per-window flip count), so a flip between the
last segment of one evaluated window and the first segment of the next is
never counted, contrary to the claim's original wording. -/
theorem C5_anomaly_per_window_flips :
    (∀ (segs : List TrigSegment) (cd : CooldownTracker) (W th : ℤ),
        detect_anomaly_switching segs cd W th = anomaly_spec_windows segs cd W th) ∧
    (∀ l : List Bool, flip_seed none l = flip_count l) := by
  constructor
  · intro segs cd W th
    exact anomaly_fold_windows W th segs.length segs [] cd le_rfl
  · exact flip_seed_none

/-- C5 counterexample: four 30-minute segments, work/work then
social/social, scanned with a 60-minute window and threshold 1.  The only
work/non-work flip (between the second and third segment) straddles the
boundary of the two evaluated windows, so under the claim's wording the
second window's counter would reach 1 and fire; the code resets `prev` to
`None` at the first window's close, counts no flip, and emits nothing. -/
theorem C5_counterexample :
    infer_is_work c5segB = true ∧ infer_is_work c5segC = false ∧
    c5segB.endMin ≠ c5segC.endMin ∧
    (detect_anomaly_switching [c5segA, c5segB, c5segC, c5segD]
      cd_empty 60 1).1 = [] := by
  refine ⟨rfl, rfl, by decide, rfl⟩

/-! ### Claim C1: the final timeline is sorted and non-overlapping -/

theorem py_int_nonneg (q : ℚ) (h : 0 ≤ q) : 0 ≤ py_int q := by
  rw [py_int, if_pos h]
  exact Int.floor_nonneg.mpr h

theorem infer_interval_ge_one (times : List ℚ) (fallback : ℤ) :
    1 ≤ infer_capture_interval_minutes times fallback := by
  unfold infer_capture_interval_minutes
  split_ifs
  · exact le_max_left 1 _
  · dsimp only
    split_ifs <;> exact le_max_left 1 _

theorem boundary_mid_bounds (a b : ℚ) (h : a ≤ b) :
    a ≤ boundary_mid a b ∧ boundary_mid a b ≤ b := by
  unfold boundary_mid
  constructor <;> nlinarith

theorem getLastD_eq_or_mem (d : α) : ∀ l : List α, l.getLastD d = d ∨ l.getLastD d ∈ l := by
  intro l
  induction l generalizing d with
  | nil => exact Or.inl rfl
  | cons x xs ih =>
    rw [List.getLastD_cons]
    rcases ih x with h | h
    · right
      rw [h]
      exact List.mem_cons_self x xs
    · exact Or.inr (List.mem_cons_of_mem x h)

theorem stable_insert_mem (le : α → α → Bool) (x : α) :
    ∀ (l : List α) (a : α), a ∈ stable_insert le x l ↔ a = x ∨ a ∈ l := by
  intro l
  induction l with
  | nil => intro a; simp [stable_insert]
  | cons y ys ih =>
    intro a
    rw [stable_insert]
    split
    · simp
    · rw [List.mem_cons, ih a, List.mem_cons]
      tauto

theorem stable_insert_perm (le : α → α → Bool) (x : α) :
    ∀ l : List α, (stable_insert le x l).Perm (x :: l) := by
  intro l
  induction l with
  | nil => simp [stable_insert]
  | cons y ys ih =>
    rw [stable_insert]
    split
    · exact List.Perm.refl _
    · exact ((ih.cons y).trans (List.Perm.swap x y ys))

theorem stable_sort_perm (le : α → α → Bool) :
    ∀ l : List α, (stable_sort le l).Perm l := by
  intro l
  induction l with
  | nil => simp [stable_sort]
  | cons x xs ih =>
    rw [stable_sort]
    exact (stable_insert_perm le x (stable_sort le xs)).trans (ih.cons x)

theorem stable_insert_pairwise (le : α → α → Bool)
    (htot : ∀ a b, le a b = true ∨ le b a = true)
    (htrans : ∀ a b c, le a b = true → le b c = true → le a c = true) (x : α) :
    ∀ l : List α, List.Pairwise (fun a b => le a b = true) l →
      List.Pairwise (fun a b => le a b = true) (stable_insert le x l) := by
  intro l
  induction l with
  | nil => intro h; simp [stable_insert]
  | cons y ys ih =>
    intro h
    rw [List.pairwise_cons] at h
    rw [stable_insert]
    split
    next hxy =>
      rw [List.pairwise_cons]
      refine ⟨?_, List.pairwise_cons.mpr h⟩
      intro a ha
      rcases List.mem_cons.mp ha with rfl | ha2
      · exact hxy
      · exact htrans x y a hxy (h.1 a ha2)
    next hxy =>
      have hyx : le y x = true := by
        rcases htot x y with h1 | h1
        · exact absurd h1 hxy
        · exact h1
      rw [List.pairwise_cons]
      refine ⟨?_, ih h.2⟩
      intro a ha
      rcases (stable_insert_mem le x ys a).mp ha with rfl | ha2
      · exact hyx
      · exact h.1 a ha2

theorem stable_sort_pairwise (le : α → α → Bool)
    (htot : ∀ a b, le a b = true ∨ le b a = true)
    (htrans : ∀ a b c, le a b = true → le b c = true → le a c = true) :
    ∀ l : List α, List.Pairwise (fun a b => le a b = true) (stable_sort le l) := by
  intro l
  induction l with
  | nil => simp [stable_sort]
  | cons x xs ih =>
    rw [stable_sort]
    exact stable_insert_pairwise le htot htrans x (stable_sort le xs) ih

theorem zip_tail_adjacent {R : α → α → Prop} :
    ∀ l : List α, List.Pairwise R l → ∀ p ∈ l.zip l.tail, R p.1 p.2 := by
  intro l
  induction l with
  | nil => intro _ p hp; simp at hp
  | cons f rest ih =>
    intro h p hp
    cases rest with
    | nil => simp at hp
    | cons g t =>
      rw [List.tail_cons, List.zip_cons_cons, List.mem_cons] at hp
      rcases hp with rfl | hp2
      · exact List.rel_of_pairwise_cons h (List.mem_cons_self g t)
      · exact ih (List.pairwise_cons.mp h).2 p hp2

theorem pairwise_zip_tail :
    ∀ l : List FrameResult, List.Pairwise (fun a b => a.dt ≤ b.dt) l →
      List.Pairwise (fun p q : FrameResult × FrameResult => p.2.dt ≤ q.1.dt)
        (l.zip l.tail) := by
  intro l
  induction l with
  | nil => intro h; simp
  | cons f rest ih =>
    intro h
    cases rest with
    | nil => simp
    | cons g t =>
      rw [List.tail_cons, List.zip_cons_cons, List.pairwise_cons]
      have hrest : List.Pairwise (fun a b : FrameResult => a.dt ≤ b.dt) (g :: t) :=
        (List.pairwise_cons.mp h).2
      constructor
      · intro q hq
        have hq1 : q.1 ∈ g :: t := by
          rcases q with ⟨q1, q2⟩
          exact (List.of_mem_zip hq).1
        rcases List.mem_cons.mp hq1 with he | hm
        · rw [he]
        · exact List.rel_of_pairwise_cons hrest hm
      · exact ih hrest

theorem idle_pair_bounds (cfg : AppConfig) (simf : String → String → ℚ)
    (hmargin : 0 ≤ cfg.idle_margin_minutes) (p : FrameResult × FrameResult)
    (hp : p.1.dt ≤ p.2.dt) (iv : ℚ × ℚ × ℚ)
    (h : idle_interval_of_pair cfg simf p = some iv) :
    p.1.dt ≤ iv.1 ∧ iv.1 < iv.2.1 ∧ iv.2.1 ≤ p.2.dt := by
  rw [idle_interval_of_pair] at h
  dsimp only at h
  split_ifs at h with h1 h2 h3
  injection h with h4
  subst h4
  have hq : (0 : ℚ) ≤ (p.2.dt - p.1.dt) / 4 := by linarith
  have h5 := le_min hmargin (py_int_nonneg _ hq)
  have hm0 : (0 : ℚ) ≤ ((min cfg.idle_margin_minutes
      (py_int ((p.2.dt - p.1.dt) / 4)) : ℤ) : ℚ) := by exact_mod_cast h5
  refine ⟨by dsimp only; linarith, ?_, by dsimp only; linarith⟩
  dsimp only
  exact h3

theorem idle_intervals_sorted (cfg : AppConfig) (simf : String → String → ℚ)
    (frames : List FrameResult) (hmargin : 0 ≤ cfg.idle_margin_minutes)
    (hsorted : List.Pairwise (fun a b : FrameResult => a.dt ≤ b.dt) frames) :
    List.Pairwise (fun iv jv : ℚ × ℚ × ℚ => iv.2.1 ≤ jv.1)
      (idle_intervals cfg simf frames) ∧
    ∀ iv ∈ idle_intervals cfg simf frames, iv.1 < iv.2.1 := by
  constructor
  · rw [idle_intervals, List.pairwise_filterMap]
    have hzip2 := List.Pairwise.and_mem.mp (pairwise_zip_tail frames hsorted)
    refine hzip2.imp ?_
    rintro p q ⟨hpmem, hqmem, hpq⟩ iv hiv jv hjv
    rw [Option.mem_def] at hiv hjv
    have hp := zip_tail_adjacent frames hsorted p hpmem
    have hq := zip_tail_adjacent frames hsorted q hqmem
    have B1 := idle_pair_bounds cfg simf hmargin p hp iv hiv
    have B2 := idle_pair_bounds cfg simf hmargin q hq jv hjv
    calc iv.2.1 ≤ p.2.dt := B1.2.2
      _ ≤ q.1.dt := hpq
      _ ≤ jv.1 := B2.1
  · intro iv hiv
    rw [idle_intervals, List.mem_filterMap] at hiv
    obtain ⟨p, hpmem, hpeq⟩ := hiv
    exact (idle_pair_bounds cfg simf hmargin p
      (zip_tail_adjacent frames hsorted p hpmem) iv hpeq).2.1

theorem subtract_within (seg : ProvSegment) (c1 c2 : ℚ) :
    ∀ t ∈ subtract_interval seg c1 c2,
      seg.start_dt ≤ t.start_dt ∧ t.end_dt ≤ seg.end_dt := by
  intro t ht
  rw [subtract_interval] at ht
  split_ifs at ht with h1 h2 h3 h4 h5
  all_goals simp only [List.mem_append, List.mem_singleton, List.mem_cons,
    List.not_mem_nil, or_false, List.nil_append, List.append_nil] at ht
  · rw [ht]
    exact ⟨le_refl _, le_refl _⟩
  · push_neg at h1
    rcases ht with rfl | rfl
    · exact ⟨le_refl _, le_of_lt h1.2⟩
    · exact ⟨le_of_lt h1.1, le_refl _⟩
  · rw [ht]
    push_neg at h1
    exact ⟨le_refl _, le_of_lt h1.2⟩
  · rw [ht]
    push_neg at h1
    exact ⟨le_of_lt h1.1, le_refl _⟩

theorem subtract_avoid (seg : ProvSegment) (c1 c2 : ℚ) :
    ∀ t ∈ subtract_interval seg c1 c2, t.end_dt ≤ c1 ∨ c2 ≤ t.start_dt := by
  intro t ht
  rw [subtract_interval] at ht
  split_ifs at ht with h1 h2 h3 h4 h5
  all_goals simp only [List.mem_append, List.mem_singleton, List.mem_cons,
    List.not_mem_nil, or_false, List.nil_append, List.append_nil] at ht
  · rw [ht]
    rcases h1 with h | h
    · exact Or.inr h
    · exact Or.inl h
  · rcases ht with rfl | rfl
    · exact Or.inl (le_refl _)
    · exact Or.inr (le_refl _)
  · rw [ht]
    exact Or.inl (le_refl _)
  · rw [ht]
    exact Or.inr (le_refl _)

theorem subtract_pairwise (seg : ProvSegment) (c1 c2 : ℚ) (h12 : c1 ≤ c2) :
    List.Pairwise (fun s t : ProvSegment => s.end_dt ≤ t.start_dt)
      (subtract_interval seg c1 c2) := by
  rw [subtract_interval]
  split_ifs with h1 h2 h3 h4 h5
  · simp
  · simp only [List.cons_append, List.singleton_append]
    exact List.pairwise_cons.mpr ⟨by intro t ht; simp at ht; rw [ht]; exact h12,
      by simp⟩
  · simp
  · simp
  · simp

theorem carve_step_pairwise (carved : List ProvSegment) (c1 c2 : ℚ)
    (h12 : c1 ≤ c2)
    (hpw : List.Pairwise (fun s t : ProvSegment => s.end_dt ≤ t.start_dt) carved) :
    List.Pairwise (fun s t : ProvSegment => s.end_dt ≤ t.start_dt)
      (carved.flatMap (fun seg => subtract_interval seg c1 c2)) := by
  rw [List.flatMap_def, List.pairwise_flatten]
  constructor
  · intro l hl
    rw [List.mem_map] at hl
    obtain ⟨seg, _, rfl⟩ := hl
    exact subtract_pairwise seg c1 c2 h12
  · rw [List.pairwise_map]
    refine hpw.imp ?_
    intro s t hst x hx y hy
    have hxs := subtract_within s c1 c2 x hx
    have hyt := subtract_within t c1 c2 y hy
    calc x.end_dt ≤ s.end_dt := hxs.2
      _ ≤ t.start_dt := hst
      _ ≤ y.start_dt := hyt.1

theorem carve_step_avoid (carved : List ProvSegment) (c1 c2 : ℚ)
    (iv : ℚ × ℚ × ℚ)
    (h : ∀ s ∈ carved, s.end_dt ≤ iv.1 ∨ iv.2.1 ≤ s.start_dt) :
    ∀ t ∈ carved.flatMap (fun seg => subtract_interval seg c1 c2),
      t.end_dt ≤ iv.1 ∨ iv.2.1 ≤ t.start_dt := by
  intro t ht
  rw [List.mem_flatMap] at ht
  obtain ⟨s, hs, hts⟩ := ht
  have hw := subtract_within s c1 c2 t hts
  rcases h s hs with h1 | h1
  · exact Or.inl (le_trans hw.2 h1)
  · exact Or.inr (le_trans h1 hw.1)

theorem carve_all_spec :
    ∀ (ivs : List (ℚ × ℚ × ℚ)) (pre : List (ℚ × ℚ × ℚ))
      (carved : List ProvSegment),
      (∀ iv ∈ ivs, iv.1 ≤ iv.2.1) →
      List.Pairwise (fun s t : ProvSegment => s.end_dt ≤ t.start_dt) carved →
      (∀ s ∈ carved, ∀ iv ∈ pre, s.end_dt ≤ iv.1 ∨ iv.2.1 ≤ s.start_dt) →
      List.Pairwise (fun s t : ProvSegment => s.end_dt ≤ t.start_dt)
        (carve_all ivs carved) ∧
      (∀ s ∈ carve_all ivs carved, ∀ iv, iv ∈ pre ∨ iv ∈ ivs →
        s.end_dt ≤ iv.1 ∨ iv.2.1 ≤ s.start_dt) := by
  intro ivs
  induction ivs with
  | nil =>
    intro pre carved _ hpw hav
    rw [carve_all]
    refine ⟨hpw, ?_⟩
    intro s hs iv hiv
    rcases hiv with h | h
    · exact hav s hs iv h
    · simp at h
  | cons iv0 rest ih =>
    intro pre carved hwidth hpw hav
    rw [carve_all]
    have hw0 : iv0.1 ≤ iv0.2.1 := hwidth iv0 (List.mem_cons_self _ _)
    have hpw' := carve_step_pairwise carved iv0.1 iv0.2.1 hw0 hpw
    have hav' : ∀ s ∈ carved.flatMap (fun seg => subtract_interval seg iv0.1 iv0.2.1),
        ∀ iv ∈ pre ++ [iv0], s.end_dt ≤ iv.1 ∨ iv.2.1 ≤ s.start_dt := by
      intro s hs iv hiv
      rw [List.mem_append, List.mem_singleton] at hiv
      rcases hiv with h | rfl
      · exact carve_step_avoid carved iv0.1 iv0.2.1 iv
          (fun t ht => hav t ht iv h) s hs
      · rw [List.mem_flatMap] at hs
        obtain ⟨t, ht, hst⟩ := hs
        exact subtract_avoid t iv.1 iv.2.1 s hst
    obtain ⟨P1, P2⟩ := ih (pre ++ [iv0]) _
      (fun iv h => hwidth iv (List.mem_cons_of_mem _ h)) hpw' hav'
    refine ⟨P1, ?_⟩
    intro s hs iv hiv
    apply P2 s hs iv
    rw [List.mem_append, List.mem_singleton]
    rcases hiv with h | h
    · exact Or.inl (Or.inl h)
    · rcases List.mem_cons.mp h with rfl | h2
      · exact Or.inl (Or.inr rfl)
      · exact Or.inr h2

theorem build_initial_cons (interval : ℚ) (prev : Option FrameResult)
    (f : FrameResult) (rest : List FrameResult) :
    build_initial_segments interval prev (f :: rest) =
      mk_prov_segment (f :: (takeRun (f.dominant_surface, f.activity) rest).1)
        (prev_start prev f)
        (match (takeRun (f.dominant_surface, f.activity) rest).2 with
          | nxt :: _ =>
            boundary_mid
              ((takeRun (f.dominant_surface, f.activity) rest).1.getLastD f).dt nxt.dt
          | [] =>
            ((takeRun (f.dominant_surface, f.activity) rest).1.getLastD f).dt
              + interval) ::
      build_initial_segments interval
        (some ((takeRun (f.dominant_surface, f.activity) rest).1.getLastD f))
        (takeRun (f.dominant_surface, f.activity) rest).2 := by
  conv_lhs => unfold build_initial_segments
  rfl

theorem build_initial_nil (interval : ℚ) (prev : Option FrameResult) :
    build_initial_segments interval prev [] = [] := by
  conv_lhs => unfold build_initial_segments

theorem build_wf_pairwise (interval : ℚ) (hint : 0 ≤ interval) :
    ∀ (n : ℕ) (frames : List FrameResult) (prev : Option FrameResult),
      frames.length ≤ n →
      List.Pairwise (fun a b : FrameResult => a.dt ≤ b.dt) frames →
      (∀ pf f0, prev = some pf → frames.head? = some f0 → pf.dt ≤ f0.dt) →
      (∀ s ∈ build_initial_segments interval prev frames,
        s.start_dt ≤ s.end_dt) ∧
      List.Pairwise (fun s t : ProvSegment => s.end_dt ≤ t.start_dt)
        (build_initial_segments interval prev frames) ∧
      (∀ f0, frames.head? = some f0 →
        ∀ s ∈ build_initial_segments interval prev frames,
          prev_start prev f0 ≤ s.start_dt) := by
  intro n
  induction n with
  | zero =>
    intro frames prev hn hsort hprev
    have h0 : frames = [] := List.length_eq_zero.mp (Nat.le_zero.mp hn)
    subst h0
    rw [build_initial_nil]
    exact ⟨by simp, by simp, by simp⟩
  | succ m ih =>
    intro frames prev hn hsort hprev
    cases frames with
    | nil =>
      rw [build_initial_nil]
      exact ⟨by simp, by simp, by simp⟩
    | cons f rest =>
      rcases htk : takeRun (f.dominant_surface, f.activity) rest with ⟨run, rem⟩
      have hsplit : run ++ rem = rest := by
        have h0 := takeRun_append (f.dominant_surface, f.activity) rest
        rw [htk] at h0
        exact h0
      have hcons := build_initial_cons interval prev f rest
      rw [htk] at hcons
      dsimp only at hcons
      have hsort_rest : List.Pairwise (fun a b : FrameResult => a.dt ≤ b.dt) rest :=
        (List.pairwise_cons.mp hsort).2
      have hf_le : ∀ x ∈ rest, f.dt ≤ x.dt := (List.pairwise_cons.mp hsort).1
      have hlast_mem : run.getLastD f = f ∨ run.getLastD f ∈ run :=
        getLastD_eq_or_mem f run
      have hf_lastF : f.dt ≤ (run.getLastD f).dt := by
        rcases hlast_mem with h | h
        · rw [h]
        · apply hf_le
          rw [← hsplit]
          exact List.mem_append_left _ h
      have hstart_le_f : prev_start prev f ≤ f.dt := by
        cases prev with
        | none => exact le_refl _
        | some pf => exact (boundary_mid_bounds pf.dt f.dt (hprev pf f rfl rfl)).2
      have hn' : rest.length ≤ m := by
        simp only [List.length_cons] at hn
        omega
      cases rem with
      | nil =>
        rw [hcons, build_initial_nil]
        refine ⟨?_, ?_, ?_⟩
        · intro s hs
          rcases List.mem_cons.mp hs with rfl | hs2
          · simp only [mk_prov_segment]
            linarith [hstart_le_f, hf_lastF, hint]
          · simp at hs2
        · simp
        · intro f0 hf0 s hs
          rw [List.head?_cons] at hf0
          injection hf0 with h2
          subst h2
          rcases List.mem_cons.mp hs with rfl | hs2
          · simp [mk_prov_segment]
          · simp at hs2
      | cons nxt r2 =>
        have hsort_rem : List.Pairwise (fun a b : FrameResult => a.dt ≤ b.dt)
            (nxt :: r2) := by
          rw [← hsplit] at hsort_rest
          exact (List.pairwise_append.mp hsort_rest).2.1
        have hlast_rem : ∀ x ∈ nxt :: r2, (run.getLastD f).dt ≤ x.dt := by
          intro x hx
          rcases hlast_mem with h | h
          · rw [h]
            apply hf_le
            rw [← hsplit]
            exact List.mem_append_right _ hx
          · rw [← hsplit] at hsort_rest
            exact (List.pairwise_append.mp hsort_rest).2.2 _ h x hx
        have hend_ge : (run.getLastD f).dt ≤
            boundary_mid (run.getLastD f).dt nxt.dt :=
          (boundary_mid_bounds _ _ (hlast_rem nxt (List.mem_cons_self _ _))).1
        have hrem_len : (nxt :: r2).length ≤ m := by
          have h1 : (nxt :: r2).length ≤ rest.length := by
            rw [← hsplit]
            simp
          omega
        have hprev' : ∀ pf f0, some (run.getLastD f) = some pf →
            (nxt :: r2).head? = some f0 → pf.dt ≤ f0.dt := by
          intro pf f0 hpf hf0
          injection hpf with h1
          subst h1
          rw [List.head?_cons] at hf0
          injection hf0 with h2
          subst h2
          exact hlast_rem _ (List.mem_cons_self _ _)
        obtain ⟨W1, W2, W3⟩ := ih (nxt :: r2) (some (run.getLastD f))
          hrem_len hsort_rem hprev'
        have htail_start : ∀ s ∈ build_initial_segments interval
            (some (run.getLastD f)) (nxt :: r2),
            boundary_mid (run.getLastD f).dt nxt.dt ≤ s.start_dt := by
          intro s hs
          exact W3 nxt rfl s hs
        have hSE : prev_start prev f ≤
            boundary_mid (run.getLastD f).dt nxt.dt :=
          le_trans hstart_le_f (le_trans hf_lastF hend_ge)
        rw [hcons]
        refine ⟨?_, ?_, ?_⟩
        · intro s hs
          rcases List.mem_cons.mp hs with rfl | hs2
          · simp only [mk_prov_segment]
            exact hSE
          · exact W1 s hs2
        · rw [List.pairwise_cons]
          refine ⟨?_, W2⟩
          intro s hs
          have h1 := htail_start s hs
          simp only [mk_prov_segment]
          exact h1
        · intro f0 hf0 s hs
          rw [List.head?_cons] at hf0
          injection hf0 with h2
          subst h2
          rcases List.mem_cons.mp hs with rfl | hs2
          · simp [mk_prov_segment]
          · exact le_trans hSE (htail_start s hs2)

set_option maxHeartbeats 1000000 in
/-- C1: for every non-empty, chronologically ordered frame list (and a
nonnegative idle margin, as configured), the final normalized timeline is
the normalization of the sorted carved-plus-idle list, and the surviving
entries of that list are sorted ascending by start time and pairwise
non-overlapping (any two intersect in at most a boundary point). -/
theorem C1_timeline_sorted_nonoverlapping (cfg : AppConfig)
    (simf : String → String → ℚ) (frames : List FrameResult)
    (hne : frames ≠ [])
    (hsorted : List.Pairwise (fun a b : FrameResult => a.dt ≤ b.dt) frames)
    (hmargin : 0 ≤ cfg.idle_margin_minutes) :
    (merge_frames_into_segments cfg simf frames).1 =
      normalize_segments (sorted_all_of cfg simf frames) ∧
    List.Pairwise (fun s t : ProvSegment => s.start_dt ≤ t.start_dt)
      (kept_of cfg simf frames) ∧
    List.Pairwise seg_nonoverlap (kept_of cfg simf frames) := by
  have htot : ∀ a b : ProvSegment,
      (fun s t : ProvSegment => decide (s.start_dt ≤ t.start_dt)) a b = true ∨
      (fun s t : ProvSegment => decide (s.start_dt ≤ t.start_dt)) b a = true := by
    intro a b
    rcases le_total a.start_dt b.start_dt with h | h
    · exact Or.inl (decide_eq_true h)
    · exact Or.inr (decide_eq_true h)
  have htrans : ∀ a b c : ProvSegment,
      (fun s t : ProvSegment => decide (s.start_dt ≤ t.start_dt)) a b = true →
      (fun s t : ProvSegment => decide (s.start_dt ≤ t.start_dt)) b c = true →
      (fun s t : ProvSegment => decide (s.start_dt ≤ t.start_dt)) a c = true := by
    intro a b c h1 h2
    exact decide_eq_true (le_trans (of_decide_eq_true h1) (of_decide_eq_true h2))
  obtain ⟨I, hI⟩ : ∃ x : ℚ, x = ((infer_capture_interval_minutes
      (frames.map (fun fr => fr.dt)) cfg.capture_interval_minutes : ℤ) : ℚ) :=
    ⟨_, rfl⟩
  have hint0 : (0 : ℚ) ≤ I := by
    rw [hI]
    have h1 := infer_interval_ge_one (frames.map (fun fr => fr.dt))
      cfg.capture_interval_minutes
    exact_mod_cast le_trans zero_le_one h1
  have hvac : ∀ (pf f0 : FrameResult), (none : Option FrameResult) = some pf →
      frames.head? = some f0 → pf.dt ≤ f0.dt := by
    intro pf f0 h
    simp at h
  have H := build_wf_pairwise I hint0 frames.length frames none le_rfl
    hsorted hvac
  have hPW : List.Pairwise (fun s t : ProvSegment => s.end_dt ≤ t.start_dt)
      (provisional_segments cfg frames) := by
    rw [provisional_segments, ← hI]
    exact H.2.1
  have hidle := idle_intervals_sorted cfg simf frames hmargin hsorted
  have hwidth : ∀ iv ∈ idle_intervals cfg simf frames, iv.1 ≤ iv.2.1 :=
    fun iv h => le_of_lt (hidle.2 iv h)
  obtain ⟨HC1, HC2⟩ := carve_all_spec (idle_intervals cfg simf frames) []
    (provisional_segments cfg frames) hwidth hPW (by simp)
  have happ : List.Pairwise seg_nonoverlap
      (carve_all (idle_intervals cfg simf frames)
        (provisional_segments cfg frames) ++
        (idle_intervals cfg simf frames).map mk_idle_segment) := by
    rw [List.pairwise_append]
    refine ⟨HC1.imp ?_, ?_, ?_⟩
    · intro s t h
      exact le_trans (le_trans (min_le_left _ _) h) (le_max_right _ _)
    · rw [List.pairwise_map]
      refine hidle.1.imp ?_
      intro iv jv h
      exact le_trans (le_trans (min_le_left _ _) h) (le_max_right _ _)
    · intro s hs t ht
      rw [List.mem_map] at ht
      obtain ⟨iv, hivmem, rfl⟩ := ht
      rcases HC2 s hs iv (Or.inr hivmem) with h | h
      · exact le_trans (min_le_left _ _) (le_trans h (le_max_right _ _))
      · exact le_trans (min_le_right _ _) (le_trans h (le_max_left _ _))
  have hsym : ∀ {x y : ProvSegment}, seg_nonoverlap x y → seg_nonoverlap y x := by
    intro x y h
    unfold seg_nonoverlap at h ⊢
    rw [min_comm, max_comm]
    exact h
  have hperm := stable_sort_perm
    (fun s t : ProvSegment => decide (s.start_dt ≤ t.start_dt))
    (carve_all (idle_intervals cfg simf frames)
      (provisional_segments cfg frames) ++
      (idle_intervals cfg simf frames).map mk_idle_segment)
  refine ⟨?_, ?_, ?_⟩
  · simp only [merge_frames_into_segments, if_neg hne]
  · rw [kept_of]
    apply List.Pairwise.sublist (List.filter_sublist _)
    rw [sorted_all_of]
    exact (stable_sort_pairwise
      (fun s t : ProvSegment => decide (s.start_dt ≤ t.start_dt)) htot htrans
      _).imp (fun h => of_decide_eq_true h)
  · rw [kept_of]
    apply List.Pairwise.sublist (List.filter_sublist _)
    rw [sorted_all_of]
    exact (List.Perm.pairwise_iff hsym hperm).mpr happ

/-- C1 witness: two chronologically ordered frames in distinct buckets,
the default configuration, and a constant-zero similarity function; all
three hypotheses are discharged concretely and the conclusions are
instantiated through the claim theorem itself. -/
theorem C1_timeline_sorted_nonoverlapping_witness :
    ([wfA, wfB] ≠ ([] : List FrameResult)) ∧
    List.Pairwise (fun a b : FrameResult => a.dt ≤ b.dt) [wfA, wfB] ∧
    (0 : ℤ) ≤ ({ } : AppConfig).idle_margin_minutes ∧
    ((merge_frames_into_segments { } (fun _ _ => 0) [wfA, wfB]).1 =
        normalize_segments (sorted_all_of { } (fun _ _ => 0) [wfA, wfB]) ∧
      List.Pairwise (fun s t : ProvSegment => s.start_dt ≤ t.start_dt)
        (kept_of { } (fun _ _ => 0) [wfA, wfB]) ∧
      List.Pairwise seg_nonoverlap (kept_of { } (fun _ _ => 0) [wfA, wfB])) :=
  ⟨by simp, by norm_num [wfA, wfB], by decide,
   C1_timeline_sorted_nonoverlapping { } (fun _ _ => 0) [wfA, wfB] (by simp)
     (by norm_num [wfA, wfB]) (by decide)⟩
